import Mathlib

/-!
Verification development for the JT808 message codec.

This file embeds the codec of the repository in Lean 4:
buffer cursor reads (src/src/utils/buffer-parser.js), checksum framing
(the checksum utilities bundled with buffer-parser.js), header parsing and
protocol version detection (src/src/utils/message-parser.js), the schema
registry (the jt808-messages model file) and the schema driven
serializer and validator (src/src/utils/message-validator.js).

Modelling conventions:
- a JS Buffer is a List Nat of byte values;
- a JS string is a List Char;
- a read that throws in JS returns Option.none here;
- the guard arithmetic of each read is kept exactly as written in the
  source, computed over Int where JS arithmetic can go negative;
- console logging is omitted (it has no effect on any returned value).
-/

namespace JT808

/-! ### Buffer cursor (class BufferParser) -/

/-- A BufferParser instance: the underlying buffer and the current offset. -/
structure BP where
  buf : List Nat
  offset : Nat
deriving Repr, DecidableEq

/-- Bytes left after the offset (method remaining). -/
def BP.remaining (p : BP) : Nat := p.buf.length - p.offset

/-- readUInt8: guard is offset >= buffer.length. -/
def readUInt8 (p : BP) : Option (Nat × BP) :=
  if p.offset ≥ p.buf.length then none
  else some (p.buf.getD p.offset 0, ⟨p.buf, p.offset + 1⟩)

/-- readUInt16BE: guard is offset + 1 >= buffer.length, big endian value. -/
def readUInt16BE (p : BP) : Option (Nat × BP) :=
  if p.offset + 1 ≥ p.buf.length then none
  else some (256 * p.buf.getD p.offset 0 + p.buf.getD (p.offset + 1) 0,
             ⟨p.buf, p.offset + 2⟩)

/-- readUInt32BE: guard is offset + 3 >= buffer.length, big endian value. -/
def readUInt32BE (p : BP) : Option (Nat × BP) :=
  if p.offset + 3 ≥ p.buf.length then none
  else some (16777216 * p.buf.getD p.offset 0 + 65536 * p.buf.getD (p.offset + 1) 0
             + 256 * p.buf.getD (p.offset + 2) 0 + p.buf.getD (p.offset + 3) 0,
             ⟨p.buf, p.offset + 4⟩)

/-- One byte of BCD output: the decimal digit characters of the high nibble
followed by those of the low nibble, via Number.prototype.toString. -/
def nibbleChars (b : Nat) : List Char :=
  (Nat.repr ((b >>> 4) &&& 15)).toList ++ (Nat.repr (b &&& 15)).toList

/-- readBCD: guard is offset + length - 1 >= buffer.length (JS signed
arithmetic, hence Int), then each of the length bytes contributes the
decimal text of its two nibbles. -/
def readBCD (p : BP) (len : Nat) : Option (List Char × BP) :=
  if (p.offset : Int) + len - 1 ≥ (p.buf.length : Int) then none
  else some ((((p.buf.drop p.offset).take len).map nibbleChars).flatten,
             ⟨p.buf, p.offset + len⟩)

/-- Decoding one byte with the ascii codec of Buffer.toString: the high bit
is cleared before the byte becomes a character. -/
def asciiDecode (b : Nat) : Char := Char.ofNat (b &&& 127)

/-- readASCII: same guard shape as readBCD; decodes with the ascii codec and
removes every NUL character (replace of the zero character with the global
flag). -/
def readASCII (p : BP) (len : Nat) : Option (List Char × BP) :=
  if (p.offset : Int) + len - 1 ≥ (p.buf.length : Int) then none
  else some ((((p.buf.drop p.offset).take len).map asciiDecode).filter
               (fun c => c ≠ Char.ofNat 0),
             ⟨p.buf, p.offset + len⟩)

/-- readBytes: same guard shape; returns the raw slice. -/
def readBytes (p : BP) (len : Nat) : Option (List Nat × BP) :=
  if (p.offset : Int) + len - 1 ≥ (p.buf.length : Int) then none
  else some ((p.buf.drop p.offset).take len, ⟨p.buf, p.offset + len⟩)

/-! ### Checksum framing (calculateChecksum, wrapMessage, unwrapMessage) -/

/-- calculateChecksum: XOR of all bytes, starting from 0. -/
def calculateChecksum (l : List Nat) : Nat := l.foldl (fun a b => a ^^^ b) 0

/-- wrapMessage: start flag, data, checksum byte, end flag. -/
def wrapMessage (messageData : List Nat) : List Nat :=
  0x7E :: (messageData ++ [calculateChecksum messageData, 0x7E])

/-- Buffer.prototype.indexOf for a byte value; none plays the role of -1. -/
def jsIndexOf : List Nat → Nat → Option Nat
  | [], _ => none
  | a :: l, v => if a = v then some 0 else (jsIndexOf l v).map (· + 1)

/-- Buffer.prototype.lastIndexOf for a byte value. -/
def jsLastIndexOf (l : List Nat) (v : Nat) : Option Nat :=
  (jsIndexOf l.reverse v).map (fun i => l.length - 1 - i)

/-- validateMessageChecksum: false when shorter than 3 bytes or the two flag
positions are missing or equal; otherwise compares the XOR of the bytes
strictly between the first flag and the checksum byte with the byte just
before the last flag. -/
def validateMessageChecksum (messageBuffer : List Nat) : Bool :=
  if messageBuffer.length < 3 then false
  else
    match jsIndexOf messageBuffer 0x7E, jsLastIndexOf messageBuffer 0x7E with
    | some startFlag, some endFlag =>
      if startFlag = endFlag then false
      else
        let messageData := (messageBuffer.drop (startFlag + 1)).take
                             (endFlag - 1 - (startFlag + 1))
        let receivedChecksum := messageBuffer.getD (endFlag - 1) 0
        decide (calculateChecksum messageData = receivedChecksum)
    | _, _ => false

/-- The two result shapes of unwrapMessage: the invalid message format object
with null data, or a data slice together with the isValid flag. -/
inductive UnwrapResult where
  | formatError
  | ok (messageData : List Nat) (isValid : Bool)
deriving Repr, DecidableEq

/-- unwrapMessage: the format error when a flag is missing or both flag
positions coincide; otherwise the slice between the flags without the
checksum byte, paired with the checksum verdict. -/
def unwrapMessage (wrappedMessage : List Nat) : UnwrapResult :=
  match jsIndexOf wrappedMessage 0x7E, jsLastIndexOf wrappedMessage 0x7E with
  | some startFlag, some endFlag =>
    if startFlag = endFlag then .formatError
    else .ok ((wrappedMessage.drop (startFlag + 1)).take
                (endFlag - 1 - (startFlag + 1)))
             (validateMessageChecksum wrappedMessage)
  | _, _ => .formatError

/-! ### Header parsing and version detection (message-parser.js) -/

/-- The three protocol version strings. -/
inductive ProtocolVersion where
  | v2011
  | v2013
  | v2019
deriving Repr, DecidableEq

/-- The fixed list of message identifiers treated as 2019 only. -/
def jt8082019Messages : List Nat :=
  [0x0001, 0x8001, 0x0102, 0x8103, 0x8104, 0x8106, 0x8107]

/-- detectProtocolVersion: reserved bits first, then the fixed identifier
list, else the 2013 default. The third parameter is accepted and unused,
exactly as in the source. -/
def detectProtocolVersion (messageId reserved messageLength : Nat) : ProtocolVersion :=
  if reserved ≠ 0 then .v2019
  else if jt8082019Messages.contains messageId then .v2019
  else .v2013

/-- The MessageHeader object fields assigned by parseHeader. -/
structure MessageHeader where
  messageId : Nat
  messageProperties : Nat
  protocolVersion : ProtocolVersion
  deviceId : List Char
  messageSequence : Nat
  messagePackage : Option (Nat × Nat)
  encryptionType : Nat
  messageLength : Nat
deriving Repr, DecidableEq

/-- parseHeader: two 16 bit reads, the bit extractions from the properties
word, a 6 byte BCD device id (both version branches of the source perform
the same readBCD 6 call), the sequence number, and the optional package
info when bit 13 is set. A read failure is the thrown buffer overflow. -/
def parseHeader (messageData : List Nat) : Option MessageHeader := do
  let p0 : BP := ⟨messageData, 0⟩
  let (messageId, p1) ← readUInt16BE p0
  let (messageProperties, p2) ← readUInt16BE p1
  let messageLength := messageProperties &&& 0x03FF
  let encryptionType := (messageProperties >>> 10) &&& 0x07
  let isFragmented := (messageProperties >>> 13) &&& 0x01
  let reserved := (messageProperties >>> 14) &&& 0x03
  let protocolVersion := detectProtocolVersion messageId reserved messageData.length
  let (deviceId, p3) ← readBCD p2 6
  let (messageSequence, p4) ← readUInt16BE p3
  if isFragmented ≠ 0 then
    let (total, p5) ← readUInt16BE p4
    let (current, _) ← readUInt16BE p5
    return ⟨messageId, messageProperties, protocolVersion, deviceId,
            messageSequence, some (total, current), encryptionType, messageLength⟩
  else
    return ⟨messageId, messageProperties, protocolVersion, deviceId,
            messageSequence, none, encryptionType, messageLength⟩

/-- getHeaderLength: 12 bytes, plus 4 when package info is present. -/
def getHeaderLength (header : MessageHeader) : Nat :=
  if header.messagePackage.isSome then 16 else 12

/-- The failure reasons of parseMessage: the invalid message format string
from unwrapMessage, the invalid checksum fallback, and the caught buffer
overflow from parseHeader. -/
inductive ParseError where
  | invalidFormat
  | invalidChecksum
  | headerTruncated
deriving Repr, DecidableEq

/-- The parseMessage result object. -/
inductive ParseResult where
  | failure (error : ParseError)
  | success (header : MessageHeader) (body : List Nat)
deriving Repr, DecidableEq

/-- parseMessage: unwrap, reject on the isValid flag, parse the header, then
slice the body from headerLength to headerLength + bodyLength where
bodyLength is messageData.length - headerLength. -/
def parseMessage (rawBuffer : List Nat) : ParseResult :=
  match unwrapMessage rawBuffer with
  | .formatError => .failure .invalidFormat
  | .ok messageData isValid =>
    if isValid then
      match parseHeader messageData with
      | none => .failure .headerTruncated
      | some header =>
        let hl := getHeaderLength header
        .success header ((messageData.drop hl).take (messageData.length - hl))
    else .failure .invalidChecksum

/-! ### Converting strings to BCD (stringToBCD, identical in
message-parser.js and message-validator.js) -/

/-- String.prototype.padStart with a single character pad. -/
def padStart (s : List Char) (n : Nat) (c : Char) : List Char :=
  List.replicate (n - s.length) c ++ s

/-- parseInt of a single character with radix 10, with the NaN result
behaving as 0 under the bitwise operators that consume it. -/
def jsDigit (c : Char) : Nat := if c.isDigit then c.toNat - 48 else 0

/-- stringToBCD: pad to length * 2 digits, then byte i packs the digits at
positions 2i and 2i + 1. -/
def stringToBCD (s : List Char) (len : Nat) : List Nat :=
  let paddedStr := padStart s (len * 2) '0'
  (List.range len).map (fun i =>
    (jsDigit (paddedStr.getD (2 * i) '0') <<< 4) ||| jsDigit (paddedStr.getD (2 * i + 1) '0'))

/-! ### Schema registry (the jt808-messages model file)

Every field object that occurs in MESSAGE_STRUCTURES is one of the shapes
below; no field of the registry declares optional, min, max, enum, pattern
or countField, every bytes field there is variable, and every string field
carries either a fixed length or the variable flag. The closed inductive
records exactly the modifier data the registry uses, so the always passing
constraint walk and the never taken optional branch are omitted from the
embedding. -/

inductive FType where
  | uint8
  | uint16
  | uint32
  | stringFixed (length : Nat)
  | stringVar
  | bcd (length : Nat)
  | bytesVar
  | location
  | arrayLoc (hasCountField : Bool)
  | arrayParam
deriving Repr, DecidableEq

/-- One schema field: its name and its type shape. -/
structure Field where
  name : String
  type : FType
deriving Repr, DecidableEq

/-- One message structure: readable name and ordered field list. -/
structure MessageStructure where
  name : String
  fields : List Field
deriving Repr, DecidableEq

/-- The deserializeLocation record. -/
structure LocationRec where
  alarmFlag : Nat
  statusFlag : Nat
  latitude : Nat
  longitude : Nat
  altitude : Nat
  speed : Nat
  direction : Nat
  timestamp : List Char
deriving Repr, DecidableEq

/-- One parameter record of a parameter array. -/
structure ParamRec where
  id : Nat
  length : Nat
  value : List Nat
deriving Repr, DecidableEq

/-- The values a decoded or user supplied field can take. Arrays are
modelled with their element kind; heterogeneous JS arrays are outside the
modelled value universe. -/
inductive JSValue where
  | num (n : Nat)
  | str (s : List Char)
  | bytes (b : List Nat)
  | loc (l : LocationRec)
  | locArray (ls : List LocationRec)
  | paramArray (ps : List ParamRec)
deriving Repr, DecidableEq

def terminalRegistrationStructure : MessageStructure :=
  ⟨"Terminal Registration",
   [⟨"provinceId", .uint16⟩, ⟨"cityId", .uint16⟩,
    ⟨"manufacturerId", .stringFixed 5⟩, ⟨"deviceModel", .stringFixed 8⟩,
    ⟨"deviceId", .stringFixed 7⟩, ⟨"plateColor", .uint8⟩,
    ⟨"plateNumber", .stringVar⟩]⟩

def terminalRegistrationResponseStructure : MessageStructure :=
  ⟨"Terminal Registration Response",
   [⟨"sequenceNumber", .uint16⟩, ⟨"result", .uint8⟩, ⟨"authCode", .stringVar⟩]⟩

def terminalAuthStructure : MessageStructure :=
  ⟨"Terminal Authentication", [⟨"authCode", .stringVar⟩]⟩

def terminalHeartbeatStructure : MessageStructure :=
  ⟨"Terminal Heartbeat", []⟩

def platformGeneralResponseStructure : MessageStructure :=
  ⟨"Platform General Response",
   [⟨"sequenceNumber", .uint16⟩, ⟨"messageId", .uint16⟩, ⟨"result", .uint8⟩]⟩

def locationReportStructure : MessageStructure :=
  ⟨"Location Information Report",
   [⟨"alarmFlag", .uint32⟩, ⟨"statusFlag", .uint32⟩,
    ⟨"latitude", .uint32⟩, ⟨"longitude", .uint32⟩,
    ⟨"altitude", .uint16⟩, ⟨"speed", .uint16⟩, ⟨"direction", .uint16⟩,
    ⟨"timestamp", .bcd 6⟩, ⟨"additionalInfo", .bytesVar⟩]⟩

def locationBatchReportStructure : MessageStructure :=
  ⟨"Location Batch Report",
   [⟨"dataType", .uint8⟩, ⟨"itemCount", .uint16⟩,
    ⟨"locationItems", .arrayLoc false⟩]⟩

def multimediaEventUploadStructure : MessageStructure :=
  ⟨"Multimedia Event Upload",
   [⟨"multimediaId", .uint32⟩, ⟨"multimediaType", .uint8⟩,
    ⟨"multimediaFormat", .uint8⟩, ⟨"eventCode", .uint8⟩, ⟨"channelId", .uint8⟩,
    ⟨"locationInfo", .location⟩, ⟨"multimediaData", .bytesVar⟩]⟩

def setTerminalParametersStructure : MessageStructure :=
  ⟨"Set Terminal Parameters",
   [⟨"parameterCount", .uint8⟩, ⟨"parameters", .arrayParam⟩]⟩

def terminalControlStructure : MessageStructure :=
  ⟨"Terminal Control",
   [⟨"commandFlag", .uint8⟩, ⟨"commandParameter", .stringVar⟩]⟩

def cameraShotCommandStructure : MessageStructure :=
  ⟨"Camera Shot Command",
   [⟨"channelId", .uint8⟩, ⟨"shotCommand", .uint16⟩, ⟨"shotInterval", .uint16⟩,
    ⟨"shotCount", .uint16⟩, ⟨"saveFlag", .uint8⟩, ⟨"resolution", .uint8⟩,
    ⟨"quality", .uint8⟩, ⟨"brightness", .uint8⟩, ⟨"contrast", .uint8⟩,
    ⟨"saturation", .uint8⟩, ⟨"chroma", .uint8⟩]⟩

/-- MESSAGE_STRUCTURES as a lookup by message identifier. -/
def lookupStructure (messageId : Nat) : Option MessageStructure :=
  if messageId = 0x0100 then some terminalRegistrationStructure
  else if messageId = 0x8100 then some terminalRegistrationResponseStructure
  else if messageId = 0x0102 then some terminalAuthStructure
  else if messageId = 0x0002 then some terminalHeartbeatStructure
  else if messageId = 0x8001 then some platformGeneralResponseStructure
  else if messageId = 0x0200 then some locationReportStructure
  else if messageId = 0x0704 then some locationBatchReportStructure
  else if messageId = 0x0800 then some multimediaEventUploadStructure
  else if messageId = 0x8103 then some setTerminalParametersStructure
  else if messageId = 0x8105 then some terminalControlStructure
  else if messageId = 0x8801 then some cameraShotCommandStructure
  else none

/-! ### Deserialization (class MessageSerializer) -/

/-- deserializeLocation: four 32 bit reads, three 16 bit reads and a 6 byte
BCD timestamp. -/
def deserializeLocation (p : BP) : Option (LocationRec × BP) := do
  let (alarmFlag, p1) ← readUInt32BE p
  let (statusFlag, p2) ← readUInt32BE p1
  let (latitude, p3) ← readUInt32BE p2
  let (longitude, p4) ← readUInt32BE p3
  let (altitude, p5) ← readUInt16BE p4
  let (speed, p6) ← readUInt16BE p5
  let (direction, p7) ← readUInt16BE p6
  let (timestamp, p8) ← readBCD p7 6
  return (⟨alarmFlag, statusFlag, latitude, longitude, altitude, speed,
           direction, timestamp⟩, p8)

/-- The location count loop of deserializeArray. -/
def deserializeLocs : Nat → BP → Option (List LocationRec × BP)
  | 0, p => some ([], p)
  | n + 1, p => do
    let (l, p1) ← deserializeLocation p
    let (ls, p2) ← deserializeLocs n p1
    return (l :: ls, p2)

/-- The parameter loop of deserializeArray: while at least 5 bytes remain,
read id, length byte, then exactly length value bytes. -/
def readParams (p : BP) : Option (List ParamRec × BP) :=
  if h5 : 5 ≤ p.remaining then
    match h1 : readUInt32BE p with
    | none => none
    | some (parameterId, p1) =>
      match h2 : readUInt8 p1 with
      | none => none
      | some (parameterLength, p2) =>
        match h3 : readBytes p2 parameterLength with
        | none => none
        | some (parameterValue, p3) =>
          match readParams p3 with
          | none => none
          | some (items, p4) =>
            some (⟨parameterId, parameterLength, parameterValue⟩ :: items, p4)
  else some ([], p)
termination_by p.remaining
decreasing_by
  simp only [readUInt32BE, readUInt8, readBytes] at h1 h2 h3
  split at h1 <;> simp_all
  obtain ⟨-, rfl⟩ := h1
  obtain ⟨-, -, rfl⟩ := h2
  obtain ⟨-, -, rfl⟩ := h3
  simp only [BP.remaining] at h5 ⊢
  omega

/-- deserializeField, by field shape. -/
def deserializeField (f : Field) (p : BP) : Option (JSValue × BP) :=
  match f.type with
  | .uint8 => (readUInt8 p).map (fun r => (.num r.1, r.2))
  | .uint16 => (readUInt16BE p).map (fun r => (.num r.1, r.2))
  | .uint32 => (readUInt32BE p).map (fun r => (.num r.1, r.2))
  | .stringFixed len => (readASCII p len).map (fun r => (.str r.1, r.2))
  | .stringVar => (readASCII p p.remaining).map (fun r => (.str r.1, r.2))
  | .bcd len => (readBCD p len).map (fun r => (.str r.1, r.2))
  | .bytesVar => (readBytes p p.remaining).map (fun r => (.bytes r.1, r.2))
  | .location => (deserializeLocation p).map (fun r => (.loc r.1, r.2))
  | .arrayLoc hasCountField =>
    if hasCountField then do
      let (itemCount, p1) ← readUInt16BE p
      let (ls, p2) ← deserializeLocs itemCount p1
      return (.locArray ls, p2)
    else (deserializeLocs 1 p).map (fun r => (.locArray r.1, r.2))
  | .arrayParam => (readParams p).map (fun r => (.paramArray r.1, r.2))

/-- The field walk of deserialize: each failure is rethrown tagged with the
offending field name. -/
def deserializeFields (fields : List Field) (p : BP) :
    Except String (List (String × JSValue) × BP) :=
  match fields with
  | [] => .ok ([], p)
  | f :: rest =>
    match deserializeField f p with
    | none => .error f.name
    | some (v, p1) =>
      match deserializeFields rest p1 with
      | .error e => .error e
      | .ok (m, p2) => .ok ((f.name, v) :: m, p2)

/-- The error shapes of deserialize. -/
inductive DeserializeError where
  | unknownMessageId (id : Nat)
  | fieldError (name : String)
deriving Repr, DecidableEq

/-- deserialize: registry lookup then the field walk from offset 0. -/
def deserialize (messageId : Nat) (messageBody : List Nat) :
    Except DeserializeError (List (String × JSValue)) :=
  match lookupStructure messageId with
  | none => .error (.unknownMessageId messageId)
  | some structure' =>
    match deserializeFields structure'.fields ⟨messageBody, 0⟩ with
    | .error n => .error (.fieldError n)
    | .ok (data, _) => .ok data

/-! ### Serialization (class MessageSerializer) -/

/-- The throw sites of serialize and serializeField: the missing required
field, the RangeError of a Buffer write with a value outside its width, and
the type errors a value of the wrong JS shape produces inside the writers. -/
inductive SerErr where
  | unknownMessageId (id : Nat)
  | missingField (name : String)
  | outOfRange
  | typeMismatch
deriving Repr, DecidableEq

/-- Big endian bytes of writeUInt16BE, for an in range value. -/
def be2 (n : Nat) : List Nat := [n / 256, n % 256]

/-- Big endian bytes of writeUInt32BE, for an in range value. -/
def be4 (n : Nat) : List Nat :=
  [n / 16777216, n / 65536 % 256, n / 256 % 256, n % 256]

/-- One byte of Buffer.from with the ascii or latin1 codec: the low byte of
the character code. -/
def encodeLatin1 (c : Char) : Nat := c.toNat &&& 255

/-- serializeLocation: the seven numeric writes and the 6 byte BCD
timestamp into a 28 byte buffer. The or zero fallbacks of the source
coincide with the direct field reads on this record type: the zero number
falls back to zero, and the empty timestamp string packs to the same six
zero bytes as the twelve zero digit default. -/
def serializeLocation (l : LocationRec) : Except SerErr (List Nat) :=
  if l.alarmFlag < 4294967296 ∧ l.statusFlag < 4294967296
     ∧ l.latitude < 4294967296 ∧ l.longitude < 4294967296
     ∧ l.altitude < 65536 ∧ l.speed < 65536 ∧ l.direction < 65536 then
    .ok (be4 l.alarmFlag ++ be4 l.statusFlag ++ be4 l.latitude ++ be4 l.longitude
         ++ be2 l.altitude ++ be2 l.speed ++ be2 l.direction
         ++ stringToBCD l.timestamp 6)
  else .error .outOfRange

/-- The location branch of serializeArray: the concatenated 28 byte
records, no count emitted. -/
def serializeLocArray : List LocationRec → Except SerErr (List Nat)
  | [] => .ok []
  | l :: ls => do
    let b ← serializeLocation l
    let r ← serializeLocArray ls
    return b ++ r

/-- The parameter branch of serializeArray: id word, the declared length
byte, then the value bytes; the buffer is sized from the value, while the
length byte stores the declared length field. -/
def serializeParamArray : List ParamRec → Except SerErr (List Nat)
  | [] => .ok []
  | q :: ps =>
    if q.id < 4294967296 ∧ q.length < 256 then do
      let r ← serializeParamArray ps
      return be4 q.id ++ [q.length] ++ q.value ++ r
    else .error .outOfRange

/-- serializeField, by field shape and value shape. A fixed string is
copied into a zero filled buffer of the declared length, up to the smaller
of the two lengths. -/
def serializeField (f : Field) (v : JSValue) : Except SerErr (List Nat) :=
  match f.type, v with
  | .uint8, .num n => if n < 256 then .ok [n] else .error .outOfRange
  | .uint16, .num n => if n < 65536 then .ok (be2 n) else .error .outOfRange
  | .uint32, .num n => if n < 4294967296 then .ok (be4 n) else .error .outOfRange
  | .stringVar, .str s => .ok (s.map encodeLatin1)
  | .stringFixed len, .str s =>
    .ok ((s.take len).map encodeLatin1 ++ List.replicate (len - s.length) 0)
  | .bcd len, .str s => .ok (stringToBCD s len)
  | .bytesVar, .bytes b => .ok b
  | .location, .loc l => serializeLocation l
  | .arrayLoc _, .locArray ls => serializeLocArray ls
  | .arrayParam, .paramArray ps => serializeParamArray ps
  | _, _ => .error .typeMismatch

/-- A data object: field name to value, none for undefined. -/
def FieldMap := String → Option JSValue

/-- The field walk of serialize: a present value is serialized and
appended; an absent value on a required field throws. No registry field is
optional, so the skip branch never runs on registry schemas. -/
def serializeFields (fields : List Field) (data : FieldMap) :
    Except SerErr (List Nat) :=
  match fields with
  | [] => .ok []
  | f :: rest =>
    match data f.name with
    | some v => do
      let b ← serializeField f v
      let r ← serializeFields rest data
      return b ++ r
    | none => .error (.missingField f.name)

/-- serialize: registry lookup then the field walk. -/
def serialize (messageId : Nat) (data : FieldMap) : Except SerErr (List Nat) :=
  match lookupStructure messageId with
  | none => .error (.unknownMessageId messageId)
  | some structure' => serializeFields structure'.fields data

/-! ### Validation (class MessageValidator) -/

/-- The distinct error message shapes of MessageValidator: the unknown
message id, the missing required field, the two per field rejections that
both start with the field name, and the caught deserialization error that
carries the offending field name. -/
inductive VError where
  | unknownMessageId (id : Nat)
  | missingField (name : String)
  | fieldInvalid (name : String)
  | deserializeFailed (name : String)
deriving Repr, DecidableEq

/-- validateFieldType. The string length rule fires only when a length is
declared, as the JS truthiness test does; the location case accepts every
object shaped value, as the typeof test does; the array cases accept both
array shapes, as Array.isArray does. -/
def validateFieldType (f : Field) (v : JSValue) : Bool :=
  match f.type, v with
  | .uint8, .num n => n ≤ 255
  | .uint16, .num n => n ≤ 65535
  | .uint32, .num n => n ≤ 4294967295
  | .uint8, _ => false
  | .uint16, _ => false
  | .uint32, _ => false
  | .stringFixed len, .str s => len = 0 ∨ s.length ≤ len
  | .stringVar, .str _ => true
  | .stringFixed _, _ => false
  | .stringVar, _ => false
  | .bcd len, .str s =>
    s ≠ [] ∧ s.all Char.isDigit ∧ (len = 0 ∨ s.length = len * 2)
  | .bcd _, _ => false
  | .bytesVar, .bytes _ => true
  | .bytesVar, _ => false
  | .location, .num _ => false
  | .location, .str _ => false
  | .location, _ => true
  | .arrayLoc _, .locArray _ => true
  | .arrayLoc _, .paramArray _ => true
  | .arrayLoc _, _ => false
  | .arrayParam, .locArray _ => true
  | .arrayParam, .paramArray _ => true
  | .arrayParam, _ => false

/-- validateFields: first violation wins; none is the all valid verdict.
No registry field declares min, max, enum or pattern, so the constraint
walk after the type check always passes and is omitted. -/
def validateFields (fields : List Field) (data : FieldMap) : Option VError :=
  match fields with
  | [] => none
  | f :: rest =>
    match data f.name with
    | none => some (.missingField f.name)
    | some v =>
      if validateFieldType f v then validateFields rest data
      else some (.fieldInvalid f.name)

/-- The validateMessage result object: the valid flag, the error if any,
and the parsed data when deserialization succeeded. -/
structure ValidationResult where
  valid : Bool
  error : Option VError
  data : Option (List (String × JSValue))
deriving Repr, DecidableEq

/-- Lookup in a parsed data object. -/
def lookupAssoc (m : List (String × JSValue)) : FieldMap :=
  fun n => (m.find? (fun q => q.1 == n)).map (fun q => q.2)

/-- validateMessage: unknown id rejection, then deserialize inside the try
with the caught error surfaced, then the field walk over the parsed data. -/
def validateMessage (messageId : Nat) (messageBody : List Nat) : ValidationResult :=
  match lookupStructure messageId with
  | none => ⟨false, some (.unknownMessageId messageId), none⟩
  | some structure' =>
    match deserializeFields structure'.fields ⟨messageBody, 0⟩ with
    | .error n => ⟨false, some (.deserializeFailed n), none⟩
    | .ok (parsedData, _) =>
      match validateFields structure'.fields (lookupAssoc parsedData) with
      | none => ⟨true, none, some parsedData⟩
      | some e => ⟨false, some e, some parsedData⟩

/-! ### Reference notions used by the statements below -/

/-- Pairwise BCD packing of consecutive digit characters: the reference
form against which the index driven loop of stringToBCD is compared. -/
def bcdPairs : List Char → List Nat
  | a :: b :: rest => ((jsDigit a <<< 4) ||| jsDigit b) :: bcdPairs rest
  | _ => []

/-- The minimal number of body bytes a field shape always consumes. -/
def minWidthF : FType → Nat
  | .uint8 => 1
  | .uint16 => 2
  | .uint32 => 4
  | .stringFixed len => len
  | .stringVar => 0
  | .bcd len => len
  | .bytesVar => 0
  | .location => 28
  | .arrayLoc hasCountField => if hasCountField then 2 else 28
  | .arrayParam => 0

/-- The minimal fixed width of a schema: the sum of its field minima. -/
def minWidth (fields : List Field) : Nat :=
  (fields.map (fun f => minWidthF f.type)).sum

/-- Field shapes whose decoder consumes a data dependent span. -/
def isVarType : FType → Bool
  | .stringVar => true
  | .bytesVar => true
  | .arrayParam => true
  | _ => false

/-- Every field before the last one has a fixed width decoder; true of all
registry schemas. -/
def varLast : List Field → Bool
  | [] => true
  | [_] => true
  | f :: rest => !isVarType f.type && varLast rest

/-- All characters of a string survive the ascii codec unchanged. -/
def asciiOnly (s : List Char) : Bool := s.all (fun c => c.toNat < 128)

/-- A well formed BCD text for a given byte length. -/
def bcdDigits (s : List Char) (len : Nat) : Bool :=
  s.length = len * 2 && s.all Char.isDigit

/-- A location record whose numeric fields fit their wire widths and whose
timestamp is twelve decimal digits. -/
def locWF (l : LocationRec) : Bool :=
  l.alarmFlag < 4294967296 && l.statusFlag < 4294967296
  && l.latitude < 4294967296 && l.longitude < 4294967296
  && l.altitude < 65536 && l.speed < 65536 && l.direction < 65536
  && bcdDigits l.timestamp 6

/-- A parameter record whose declared length byte is in range and states
the true value length. -/
def paramWF (q : ParamRec) : Bool :=
  q.id < 4294967296 && q.length < 256 && q.value.length = q.length

/-- Serialization side well formedness of one value for one field shape,
beyond what validateFieldType checks: ascii clean strings, complete in
range location records, consistent parameter records, and a single record
in a location array without a count field. -/
def serWF (f : Field) (v : JSValue) : Bool :=
  match f.type, v with
  | .uint8, .num _ => true
  | .uint16, .num _ => true
  | .uint32, .num _ => true
  | .stringFixed len, .str s => asciiOnly s && decide (s.length ≤ len)
  | .stringVar, .str s => asciiOnly s
  | .bcd len, .str s => bcdDigits s len
  | .bytesVar, .bytes _ => true
  | .location, .loc l => locWF l
  | .arrayLoc hasCountField, .locArray ls =>
    match hasCountField, ls with
    | false, [l] => locWF l
    | _, _ => false
  | .arrayParam, .paramArray ps => ps.all paramWF
  | _, _ => false

/-- Well formedness of a whole data object for a field list. -/
def serReady (fields : List Field) (data : FieldMap) : Bool :=
  fields.all (fun f =>
    match data f.name with
    | some v => serWF f v
    | none => false)

/-- NUL trim normalization of a value: decoded strings lose their NUL
characters, everything else round trips on the nose. -/
def normalizeVal (t : FType) (v : JSValue) : JSValue :=
  match t, v with
  | .stringFixed _, .str s => .str (s.filter (fun c => c ≠ Char.ofNat 0))
  | .stringVar, .str s => .str (s.filter (fun c => c ≠ Char.ofNat 0))
  | _, _ => v

/-- The data object deserialize rebuilds from a serialized map: the schema
fields in order, each with its normalized value. -/
def normalizeMap (fields : List Field) (data : FieldMap) : List (String × JSValue) :=
  fields.map (fun f => (f.name,
    match data f.name with
    | some v => normalizeVal f.type v
    | none => .num 0))

/-- A sample location record, the one of the specification scenario. -/
def cexLoc1 : LocationRec :=
  ⟨1, 3, 39904200, 116407400, 100, 605, 90, "231222143000".toList⟩

/-- A second sample location record, distinct from the first. -/
def cexLoc2 : LocationRec :=
  ⟨0, 0, 1, 2, 3, 4, 5, "240101000000".toList⟩

/-- A batch location report data object announcing two records. -/
def cexBatchData : FieldMap := fun n =>
  if n = "dataType" then some (.num 0)
  else if n = "itemCount" then some (.num 2)
  else if n = "locationItems" then some (.locArray [cexLoc1, cexLoc2])
  else none

/-- A well formed general response data object used as a witness input. -/
def c1WitnessData : FieldMap := fun n =>
  if n = "sequenceNumber" then some (.num 5)
  else if n = "messageId" then some (.num 0x0100)
  else if n = "result" then some (.num 0)
  else none

/-! ### Claim C7: version detection -/

/-- C7: detectProtocolVersion returns 2019 when the reserved bits are non
zero, else 2019 when the message identifier is in the fixed 2019 list,
else 2013; it never returns 2011, and the unused length argument never
changes the result. -/
theorem claim_C7_detect (messageId reserved messageLength messageLength' : Nat) :
    detectProtocolVersion messageId reserved messageLength
      = (if reserved ≠ 0 then ProtocolVersion.v2019
         else if messageId ∈ jt8082019Messages then ProtocolVersion.v2019
         else ProtocolVersion.v2013)
    ∧ detectProtocolVersion messageId reserved messageLength ≠ ProtocolVersion.v2011
    ∧ detectProtocolVersion messageId reserved messageLength
      = detectProtocolVersion messageId reserved messageLength' := by
  have hmem : jt8082019Messages.contains messageId = true ↔ messageId ∈ jt8082019Messages :=
    List.elem_iff
  refine ⟨?_, ?_, rfl⟩
  · unfold detectProtocolVersion
    by_cases hr : reserved ≠ 0
    · simp [hr]
    · by_cases hm : jt8082019Messages.contains messageId
      · simp [hr, hm, hmem.mp hm]
      · have hnm : messageId ∉ jt8082019Messages := fun hc => hm (hmem.mpr hc)
        simp [hr, hm, hnm]
  · unfold detectProtocolVersion
    by_cases hr : reserved ≠ 0
    · simp [hr]
    · by_cases hm : jt8082019Messages.contains messageId
      · simp [hr, hmem.mp hm]
      · have hnm : messageId ∉ jt8082019Messages := fun hc => hm (hmem.mpr hc)
        simp [hr, hm, hnm]

/-! ### Claim C9: unknown message identifiers -/

/-- C9: for an identifier absent from the registry, validateMessage
returns the structured invalid result carrying the unknown message id
error, for every body. -/
theorem claim_C9_unknown_id (messageId : Nat) (messageBody : List Nat)
    (h : lookupStructure messageId = none) :
    validateMessage messageId messageBody
      = ⟨false, some (.unknownMessageId messageId), none⟩ := by
  unfold validateMessage
  rw [h]

/-- Witness for C9 at identifier 0xFFFF with an empty body. -/
theorem claim_C9_witness :
    lookupStructure 0xFFFF = none
    ∧ validateMessage 0xFFFF []
        = ⟨false, some (.unknownMessageId 0xFFFF), none⟩ :=
  ⟨by decide, claim_C9_unknown_id 0xFFFF [] (by decide)⟩

/-! ### Frame round trip: shared computation lemma -/

/-- Unwrapping any frame of the wrap shape: the data is recovered and the
verdict compares the XOR of the data with the stored checksum byte. -/
theorem unwrap_frame (b : List Nat) (c : Nat) :
    unwrapMessage (0x7E :: (b ++ [c, 0x7E]))
      = .ok b (decide (calculateChecksum b = c)) := by
  have hfirst : jsIndexOf (0x7E :: (b ++ [c, 0x7E])) 0x7E = some 0 := by
    simp [jsIndexOf]
  have hrev : (0x7E :: (b ++ [c, 0x7E])).reverse
      = 0x7E :: c :: (b.reverse ++ [0x7E]) := by
    simp
  have hlast : jsLastIndexOf (0x7E :: (b ++ [c, 0x7E])) 0x7E = some (b.length + 2) := by
    unfold jsLastIndexOf
    rw [hrev]
    simp [jsIndexOf]
  have hlen : (0x7E :: (b ++ [c, 0x7E])).length = b.length + 3 := by simp
  have hslice : ((0x7E :: (b ++ [c, 0x7E])).drop 1).take (b.length + 2 - 1 - 1) = b := by
    simp only [List.drop_succ_cons, List.drop_zero]
    have h2 : b.length + 2 - 1 - 1 = b.length := by omega
    rw [h2]
    exact List.take_left b [c, 0x7E]
  have hgd : (0x7E :: (b ++ [c, 0x7E])).getD (b.length + 2 - 1) 0 = c := by
    have h2 : b.length + 2 - 1 = b.length + 1 := by omega
    rw [h2]
    show (0x7E :: (b ++ [c, 0x7E])).getD (b.length + 1) 0 = c
    rw [List.getD_cons_succ]
    rw [List.getD_append_right b [c, 0x7E] 0 b.length (le_refl _)]
    simp
  have hvalid : validateMessageChecksum (0x7E :: (b ++ [c, 0x7E]))
      = decide (calculateChecksum b = c) := by
    unfold validateMessageChecksum
    rw [hfirst, hlast, hlen]
    have h3 : ¬ (b.length + 3 < 3) := by omega
    have hne : (0 : Nat) ≠ b.length + 2 := by omega
    simp only [h3, if_false, hne, if_neg]
    rw [hslice, hgd]
  unfold unwrapMessage
  rw [hfirst, hlast]
  have hne : (0 : Nat) ≠ b.length + 2 := by omega
  simp only [hne, if_neg, if_false]
  rw [hslice, hvalid]

/-! ### Claim C4: framing round trip -/

/-- C4: unwrapping the wrap of any data without the flag byte returns the
data with a valid checksum verdict. -/
theorem claim_C4_wrap_unwrap (b : List Nat) (h : (0x7E : Nat) ∉ b) :
    unwrapMessage (wrapMessage b) = .ok b true := by
  have hf := unwrap_frame b (calculateChecksum b)
  simpa [wrapMessage] using hf

/-- Witness for C4 at a small concrete data buffer. -/
theorem claim_C4_witness :
    (0x7E : Nat) ∉ [1, 2, 3]
    ∧ unwrapMessage (wrapMessage [1, 2, 3]) = .ok [1, 2, 3] true :=
  ⟨by decide, claim_C4_wrap_unwrap [1, 2, 3] (by decide)⟩

/-! ### Claim C8: checksum sensitivity -/

/-- C8: flipping any single bit of the checksum byte of a wrapped frame
makes unwrapping report an invalid checksum while still returning the
data slice. -/
theorem claim_C8_checksum_flip (b : List Nat) (k : Nat) (hk : k < 8) :
    unwrapMessage ((wrapMessage b).set ((wrapMessage b).length - 2)
        (calculateChecksum b ^^^ (1 <<< k)))
      = .ok b false := by
  have hset : (wrapMessage b).set ((wrapMessage b).length - 2)
        (calculateChecksum b ^^^ (1 <<< k))
      = 0x7E :: (b ++ [calculateChecksum b ^^^ (1 <<< k), 0x7E]) := by
    unfold wrapMessage
    have hlen : (0x7E :: (b ++ [calculateChecksum b, 0x7E])).length - 2
        = b.length + 1 := by simp
    rw [hlen, List.set_cons_succ]
    simp [List.set_append]
  rw [hset, unwrap_frame]
  have hne : calculateChecksum b ≠ calculateChecksum b ^^^ (1 <<< k) := by
    intro heq
    have h0 : calculateChecksum b ^^^ calculateChecksum b
        = calculateChecksum b ^^^ (calculateChecksum b ^^^ (1 <<< k)) := by
      rw [← heq]
    rw [Nat.xor_self, ← Nat.xor_assoc, Nat.xor_self, Nat.zero_xor] at h0
    have hpos : 0 < 1 <<< k := by
      rw [Nat.one_shiftLeft]
      exact Nat.pos_pow_of_pos k (by omega)
    omega
  simp [hne]

/-- Witness for C8: flipping bit 0 of the checksum byte of the wrap of a
concrete buffer yields the invalid verdict. -/
theorem claim_C8_witness :
    (0 : Nat) < 8
    ∧ unwrapMessage ((wrapMessage [5, 6]).set ((wrapMessage [5, 6]).length - 2)
          (calculateChecksum [5, 6] ^^^ (1 <<< 0)))
        = .ok [5, 6] false :=
  ⟨by decide, claim_C8_checksum_flip [5, 6] 0 (by decide)⟩

/-! ### Claim C10: stringToBCD -/

/-- The index driven packing loop equals pairwise packing of the first
n * 2 characters, whenever that many characters exist. -/
theorem rangeMap_bcdPairs : ∀ (n : Nat) (l : List Char), n * 2 ≤ l.length →
    (List.range n).map (fun i =>
        (jsDigit (l.getD (2 * i) '0') <<< 4) ||| jsDigit (l.getD (2 * i + 1) '0'))
      = bcdPairs (l.take (n * 2))
  | 0, l, _ => by simp [bcdPairs]
  | n + 1, l, h => by
    match l with
    | [] =>
      simp at h
    | [a] =>
      simp at h
      omega
    | a :: b :: rest =>
      have hr : n * 2 ≤ rest.length := by
        simp at h
        omega
      have h2 : (n + 1) * 2 = n * 2 + 1 + 1 := by ring
      have hrhs : bcdPairs (a :: b :: List.take (n * 2) rest)
          = ((jsDigit a <<< 4) ||| jsDigit b) :: bcdPairs (List.take (n * 2) rest) := rfl
      have hhead : (jsDigit ((a :: b :: rest).getD (2 * 0) '0') <<< 4)
          ||| jsDigit ((a :: b :: rest).getD (2 * 0 + 1) '0')
          = (jsDigit a <<< 4) ||| jsDigit b := by
        norm_num
      have htail : List.map ((fun i =>
          (jsDigit ((a :: b :: rest).getD (2 * i) '0') <<< 4)
            ||| jsDigit ((a :: b :: rest).getD (2 * i + 1) '0')) ∘ Nat.succ)
            (List.range n)
          = bcdPairs (List.take (n * 2) rest) := by
        rw [← rangeMap_bcdPairs n rest hr]
        apply List.map_congr_left
        intro i _
        simp only [Function.comp_apply, Nat.succ_eq_add_one]
        have e1 : 2 * (i + 1) = 2 * i + 1 + 1 := by ring
        rw [e1]
        simp only [List.getD_cons_succ]
      rw [h2, List.range_succ_eq_map, List.map_cons, List.map_map,
          List.take_succ_cons, List.take_succ_cons, hrhs, hhead, htail]

/-- stringToBCD always produces exactly len bytes. -/
theorem stringToBCD_length (s : List Char) (len : Nat) :
    (stringToBCD s len).length = len := by
  unfold stringToBCD
  simp

/-- stringToBCD equals pairwise packing of the padded, truncated text. -/
theorem stringToBCD_eq (s : List Char) (len : Nat) :
    stringToBCD s len = bcdPairs ((padStart s (len * 2) '0').take (len * 2)) := by
  unfold stringToBCD
  exact rangeMap_bcdPairs len (padStart s (len * 2) '0')
    (by simp [padStart]; omega)

/-- C10: stringToBCD returns exactly len bytes; a short input is left
padded with zero digit characters and a long input is truncated to its
first len * 2 characters before pairwise packing. -/
theorem claim_C10_stringToBCD (s : List Char) (len : Nat) :
    (stringToBCD s len).length = len
    ∧ stringToBCD s len = bcdPairs ((padStart s (len * 2) '0').take (len * 2)) :=
  ⟨stringToBCD_length s len, stringToBCD_eq s len⟩

/-! ### Claim C6: readBCD -/

/-- Decimal text of a single decimal digit value. -/
theorem repr_digit (d : Nat) (hd : d ≤ 9) :
    (Nat.repr d).toList = [Char.ofNat (48 + d)] := by
  interval_cases d <;> decide

/-- Flattening lists of two characters doubles the count. -/
theorem flatten_two (xs : List Nat) (g : Nat → List Char)
    (hg : ∀ x ∈ xs, (g x).length = 2) :
    ((xs.map g).flatten).length = 2 * xs.length := by
  induction xs with
  | nil => simp
  | cons a t ih =>
    simp only [List.map_cons, List.flatten_cons, List.length_append,
      List.length_cons]
    rw [hg a (by simp), ih (fun x hx => hg x (by simp [hx]))]
    ring

/-- C6 amended: with n bytes remaining, readBCD consumes exactly n bytes;
each byte contributes the decimal text of its high then low nibble, and
when every nibble is at most 9 that is exactly two characters per byte,
for a result of exactly 2 * n characters; byte 0x12 decodes to 12. -/
theorem claim_C6_readBCD (p : BP) (n : Nat)
    (hrem : p.offset + n ≤ p.buf.length)
    (hdec : ∀ b ∈ (p.buf.drop p.offset).take n,
        (b >>> 4) &&& 15 ≤ 9 ∧ b &&& 15 ≤ 9) :
    readBCD p n = some ((((p.buf.drop p.offset).take n).map (fun b =>
        [Char.ofNat (48 + ((b >>> 4) &&& 15)), Char.ofNat (48 + (b &&& 15))])).flatten,
      ⟨p.buf, p.offset + n⟩)
    ∧ ((((p.buf.drop p.offset).take n).map (fun b =>
        [Char.ofNat (48 + ((b >>> 4) &&& 15)), Char.ofNat (48 + (b &&& 15))])).flatten).length
      = 2 * n
    ∧ readBCD ⟨[0x12], 0⟩ 1 = some (['1', '2'], ⟨[0x12], 1⟩) := by
  have hmap : ((p.buf.drop p.offset).take n).map nibbleChars
      = ((p.buf.drop p.offset).take n).map (fun b =>
          [Char.ofNat (48 + ((b >>> 4) &&& 15)), Char.ofNat (48 + (b &&& 15))]) := by
    apply List.map_congr_left
    intro b hb
    obtain ⟨hhi, hlo⟩ := hdec b hb
    unfold nibbleChars
    rw [repr_digit _ hhi, repr_digit _ hlo]
    rfl
  refine ⟨?_, ?_, by decide⟩
  · unfold readBCD
    rw [if_neg (by omega), hmap]
  · rw [← hmap]
    have hlen : ((p.buf.drop p.offset).take n).length = n := by
      simp
      omega
    rw [flatten_two _ _ ?_, hlen]
    intro b hb
    obtain ⟨hhi, hlo⟩ := hdec b hb
    unfold nibbleChars
    rw [repr_digit _ hhi, repr_digit _ hlo]
    rfl

/-- Witness for C6 at a concrete two byte decimal buffer. -/
theorem claim_C6_witness :
    readBCD ⟨[0x12, 0x34], 0⟩ 2 = some (['1', '2', '3', '4'], ⟨[0x12, 0x34], 2⟩) := by
  have h := (claim_C6_readBCD ⟨[0x12, 0x34], 0⟩ 2 (by decide) (by decide)).1
  exact h.trans (by decide)

/-- Counterexample for C6 as stated: byte 0xAB has nibbles 10 and 11, so
readBCD yields the four characters 1011 for a single byte, not two. -/
theorem claim_C6_counterexample :
    readBCD ⟨[0xAB], 0⟩ 1 = some (['1', '0', '1', '1'], ⟨[0xAB], 1⟩)
    ∧ (['1', '0', '1', '1'] : List Char).length ≠ 2 * 1 := by
  decide

/-! ### Claim C3: index lemmas for the delimiter search -/

/-- The search succeeds exactly when the value occurs. -/
theorem jsIndexOf_isSome_iff (l : List Nat) (v : Nat) :
    (jsIndexOf l v).isSome ↔ v ∈ l := by
  induction l with
  | nil => simp [jsIndexOf]
  | cons a t ih =>
    by_cases hav : a = v
    · simp [jsIndexOf, hav]
    · simp [jsIndexOf, hav, ih, Ne.symm hav]

/-- What a successful first index search means: a hit at the index, no hit
before it. -/
theorem jsIndexOf_spec (l : List Nat) (v : Nat) :
    ∀ i, jsIndexOf l v = some i →
      i < l.length ∧ l[i]? = some v ∧ ∀ j, j < i → l[j]? ≠ some v := by
  induction l with
  | nil => intro i h; simp [jsIndexOf] at h
  | cons a t ih =>
    intro i h
    by_cases hav : a = v
    · simp [jsIndexOf, hav] at h
      subst h
      simp [hav]
    · simp only [jsIndexOf, hav, if_false, Option.map_eq_some'] at h
      obtain ⟨i', hi', rfl⟩ := h
      obtain ⟨hlt, hget, hmin⟩ := ih i' hi'
      refine ⟨by simp; omega, by simpa using hget, ?_⟩
      intro j hj
      cases j with
      | zero => simp [hav]
      | succ j' =>
        simp only [List.getElem?_cons_succ]
        exact hmin j' (by omega)

/-- What a successful last index search means: a hit at the index, no hit
after it. -/
theorem jsLastIndexOf_spec (l : List Nat) (v e : Nat)
    (h : jsLastIndexOf l v = some e) :
    e < l.length ∧ l[e]? = some v ∧ ∀ j, e < j → j < l.length → l[j]? ≠ some v := by
  unfold jsLastIndexOf at h
  rw [Option.map_eq_some'] at h
  obtain ⟨r, hr, rfl⟩ := h
  obtain ⟨hrlt, hrget, hrmin⟩ := jsIndexOf_spec l.reverse v r hr
  rw [List.length_reverse] at hrlt
  have hlen0 : 0 < l.length := by omega
  have hegete : l.reverse[r]? = l[l.length - 1 - r]? := List.getElem?_reverse (by simpa)
  refine ⟨by omega, by rw [← hegete]; exact hrget, ?_⟩
  intro j hej hjl hjv
  have hrj : l.length - 1 - j < r := by omega
  have hjr : l.reverse[l.length - 1 - j]? = l[j]? := by
    rw [List.getElem?_reverse (show l.length - 1 - j < l.length by omega)]
    congr 1
    omega
  exact hrmin (l.length - 1 - j) hrj (by rw [hjr]; exact hjv)

/-- Two occurrences exist when the count is at least two. -/
theorem exists_two_of_count (l : List Nat) (v : Nat) (h : 2 ≤ l.count v) :
    ∃ q1 q2 : Nat, q1 < q2 ∧ l[q1]? = some v ∧ l[q2]? = some v := by
  induction l with
  | nil => simp at h
  | cons a t ih =>
    rw [List.count_cons] at h
    by_cases hav : a = v
    · simp [hav] at h
      obtain ⟨q, hq, hval⟩ := List.mem_iff_getElem.mp h
      have hq2 : t[q]? = some v := by
        rw [List.getElem?_eq_getElem hq, hval]
      exact ⟨0, q + 1, by omega, by simp [hav], by simpa using hq2⟩
    · have h2 : 2 ≤ t.count v := by
        simp [hav] at h
        omega
      obtain ⟨q1, q2, h12, hg1, hg2⟩ := ih h2
      exact ⟨q1 + 1, q2 + 1, by omega, by simpa using hg1, by simpa using hg2⟩

/-- Two distinct occurrences force a count of at least two. -/
theorem count_two_of_positions (l : List Nat) (v : Nat) :
    ∀ q1 q2 : Nat, q1 < q2 → l[q1]? = some v → l[q2]? = some v → 2 ≤ l.count v := by
  induction l with
  | nil =>
    intro q1 q2 _ h1 _
    simp at h1
  | cons a t ih =>
    intro q1 q2 h12 h1 h2
    rw [List.count_cons]
    cases q1 with
    | zero =>
      simp at h1
      have hq2e : ∃ m : Nat, q2 = m + 1 := ⟨q2 - 1, by omega⟩
      obtain ⟨q2', rfl⟩ := hq2e
      simp only [List.getElem?_cons_succ] at h2
      have hmem : v ∈ t := List.getElem?_mem h2
      simpa [h1] using hmem
    | succ q1' =>
      have hq2e : ∃ m : Nat, q2 = m + 1 := ⟨q2 - 1, by omega⟩
      obtain ⟨q2', rfl⟩ := hq2e
      simp only [List.getElem?_cons_succ] at h1 h2
      have := ih q1' q2' (by omega) h1 h2
      omega

/-- With exactly one occurrence, the first and last index coincide. -/
theorem count_one_first_eq_last (l : List Nat) (v : Nat) (h : l.count v = 1) :
    ∃ i, jsIndexOf l v = some i ∧ jsLastIndexOf l v = some i := by
  have hmem : v ∈ l := List.count_pos_iff.mp (by omega)
  have hfirst : (jsIndexOf l v).isSome := (jsIndexOf_isSome_iff l v).mpr hmem
  have hlastS : (jsIndexOf l.reverse v).isSome :=
    (jsIndexOf_isSome_iff l.reverse v).mpr (by simpa using hmem)
  obtain ⟨s, hs⟩ := Option.isSome_iff_exists.mp hfirst
  obtain ⟨r, hr⟩ := Option.isSome_iff_exists.mp hlastS
  have hlast : jsLastIndexOf l v = some (l.length - 1 - r) := by
    unfold jsLastIndexOf
    rw [hr]
    rfl
  obtain ⟨hslt, hsget, hsmin⟩ := jsIndexOf_spec l v s hs
  obtain ⟨helt, heget, hemax⟩ := jsLastIndexOf_spec l v (l.length - 1 - r) hlast
  have hse : s ≤ l.length - 1 - r := by
    by_contra hgt
    exact hsmin (l.length - 1 - r) (by omega) heget
  have hes : ¬ (s < l.length - 1 - r) := by
    intro hlt
    have := count_two_of_positions l v s (l.length - 1 - r) hlt hsget heget
    omega
  have heq : s = l.length - 1 - r := by omega
  exact ⟨s, hs, by rw [hlast, heq]⟩

/-- C3 amended: the malformed format result appears exactly when the
buffer holds at most one flag byte; with two or more flags, unwrapping
returns the slice strictly between the first and last flag minus the
checksum byte, with a verdict that requires at least three total bytes and
the XOR of the slice to match the byte just before the last flag. A
too short frame with two flags is therefore reported as an invalid
checksum, not as a malformed format. -/
theorem claim_C3_unwrap (buf : List Nat) :
    (unwrapMessage buf = .formatError ↔ buf.count 0x7E ≤ 1)
    ∧ (2 ≤ buf.count 0x7E →
      ∃ s e : Nat, s < e
        ∧ buf[s]? = some 0x7E ∧ buf[e]? = some 0x7E
        ∧ (∀ j, j < s → buf[j]? ≠ some 0x7E)
        ∧ (∀ j, e < j → j < buf.length → buf[j]? ≠ some 0x7E)
        ∧ unwrapMessage buf
          = .ok ((buf.drop (s + 1)).take (e - 1 - (s + 1)))
              (decide (3 ≤ buf.length)
                && decide (calculateChecksum ((buf.drop (s + 1)).take (e - 1 - (s + 1)))
                    = buf.getD (e - 1) 0))) := by
  have hmain : 2 ≤ buf.count 0x7E →
      ∃ s e : Nat, s < e
        ∧ buf[s]? = some 0x7E ∧ buf[e]? = some 0x7E
        ∧ (∀ j, j < s → buf[j]? ≠ some 0x7E)
        ∧ (∀ j, e < j → j < buf.length → buf[j]? ≠ some 0x7E)
        ∧ jsIndexOf buf 0x7E = some s ∧ jsLastIndexOf buf 0x7E = some e := by
    intro h2
    have hmem : (0x7E : Nat) ∈ buf := List.count_pos_iff.mp (by omega)
    obtain ⟨s, hs⟩ := Option.isSome_iff_exists.mp ((jsIndexOf_isSome_iff buf 0x7E).mpr hmem)
    obtain ⟨r, hr⟩ := Option.isSome_iff_exists.mp
      ((jsIndexOf_isSome_iff buf.reverse 0x7E).mpr (by simpa using hmem))
    have hlast : jsLastIndexOf buf 0x7E = some (buf.length - 1 - r) := by
      unfold jsLastIndexOf
      rw [hr]
      rfl
    obtain ⟨hslt, hsget, hsmin⟩ := jsIndexOf_spec buf 0x7E s hs
    obtain ⟨helt, heget, hemax⟩ := jsLastIndexOf_spec buf 0x7E _ hlast
    obtain ⟨q1, q2, h12, hg1, hg2⟩ := exists_two_of_count buf 0x7E h2
    have hsq : s ≤ q1 := by
      by_contra hgt
      exact hsmin q1 (by omega) hg1
    have hq2lt : q2 < buf.length := by
      by_contra hge
      rw [List.getElem?_eq_none (by omega)] at hg2
      exact Option.noConfusion hg2
    have hqe : q2 ≤ buf.length - 1 - r := by
      by_contra hgt
      exact hemax q2 (by omega) hq2lt hg2
    exact ⟨s, buf.length - 1 - r, by omega, hsget, heget, hsmin, hemax, hs, hlast⟩
  constructor
  · constructor
    · intro hfe
      by_contra hgt
      obtain ⟨s, e, hse, _, _, _, _, hs, hlast⟩ := hmain (by omega)
      unfold unwrapMessage at hfe
      rw [hs, hlast] at hfe
      simp [Nat.ne_of_lt hse] at hfe
    · intro hle
      rcases Nat.lt_or_ge (buf.count 0x7E) 1 with h0 | h1
      · have hnone : jsIndexOf buf 0x7E = none := by
          by_contra hne
          have hsome := Option.ne_none_iff_isSome.mp hne
          have hmem := (jsIndexOf_isSome_iff buf 0x7E).mp hsome
          have := List.count_pos_iff.mpr hmem
          omega
        unfold unwrapMessage
        rw [hnone]
      · obtain ⟨i, hfi, hli⟩ := count_one_first_eq_last buf 0x7E (by omega)
        unfold unwrapMessage
        rw [hfi, hli]
        simp
  · intro h2
    obtain ⟨s, e, hse, hsget, heget, hsmin, hemax, hs, hlast⟩ := hmain h2
    refine ⟨s, e, hse, hsget, heget, hsmin, hemax, ?_⟩
    have hvalid : validateMessageChecksum buf
        = (decide (3 ≤ buf.length)
            && decide (calculateChecksum ((buf.drop (s + 1)).take (e - 1 - (s + 1)))
                = buf.getD (e - 1) 0)) := by
      unfold validateMessageChecksum
      rcases Nat.lt_or_ge buf.length 3 with hlt | hge
      · rw [if_pos hlt]
        have h3 : ¬ (3 ≤ buf.length) := by omega
        simp [h3]
      · rw [if_neg (by omega), hs, hlast]
        have hne : s ≠ e := Nat.ne_of_lt hse
        simp [hne, hge]
    unfold unwrapMessage
    rw [hs, hlast]
    have hne : s ≠ e := Nat.ne_of_lt hse
    simp [hne, hvalid]

/-- Witness for C3 at a frame with two flags around a one byte body and
its checksum. -/
theorem claim_C3_witness :
    2 ≤ ([0x7E, 9, 9, 0x7E] : List Nat).count 0x7E
    ∧ ∃ s e : Nat, s < e
        ∧ ([0x7E, 9, 9, 0x7E] : List Nat)[s]? = some 0x7E
        ∧ ([0x7E, 9, 9, 0x7E] : List Nat)[e]? = some 0x7E
        ∧ (∀ j, j < s → ([0x7E, 9, 9, 0x7E] : List Nat)[j]? ≠ some 0x7E)
        ∧ (∀ j, e < j → j < ([0x7E, 9, 9, 0x7E] : List Nat).length →
            ([0x7E, 9, 9, 0x7E] : List Nat)[j]? ≠ some 0x7E)
        ∧ unwrapMessage [0x7E, 9, 9, 0x7E]
          = .ok ((([0x7E, 9, 9, 0x7E] : List Nat).drop (s + 1)).take (e - 1 - (s + 1)))
              (decide (3 ≤ ([0x7E, 9, 9, 0x7E] : List Nat).length)
                && decide (calculateChecksum
                      ((([0x7E, 9, 9, 0x7E] : List Nat).drop (s + 1)).take (e - 1 - (s + 1)))
                    = ([0x7E, 9, 9, 0x7E] : List Nat).getD (e - 1) 0)) :=
  ⟨by decide, (claim_C3_unwrap [0x7E, 9, 9, 0x7E]).2 (by decide)⟩

/-- Counterexample for C3 as stated: the two byte frame of two flags is
shorter than three bytes, yet unwrapping does not return the malformed
format error; it returns an empty body with an invalid checksum verdict. -/
theorem claim_C3_counterexample :
    ([0x7E, 0x7E] : List Nat).length < 3
    ∧ unwrapMessage [0x7E, 0x7E] ≠ .formatError
    ∧ unwrapMessage [0x7E, 0x7E] = .ok [] false := by
  decide

/-! ### Success conditions and shapes of the primitive reads -/

/-- readUInt8 succeeds exactly when one byte remains. -/
theorem readUInt8_isSome (p : BP) :
    (readUInt8 p).isSome ↔ p.offset + 1 ≤ p.buf.length := by
  unfold readUInt8
  split_ifs with hc <;> simp <;> omega

/-- readUInt16BE succeeds exactly when two bytes remain. -/
theorem readUInt16BE_isSome (p : BP) :
    (readUInt16BE p).isSome ↔ p.offset + 2 ≤ p.buf.length := by
  unfold readUInt16BE
  split_ifs with hc <;> simp <;> omega

/-- readUInt32BE succeeds exactly when four bytes remain. -/
theorem readUInt32BE_isSome (p : BP) :
    (readUInt32BE p).isSome ↔ p.offset + 4 ≤ p.buf.length := by
  unfold readUInt32BE
  split_ifs with hc <;> simp <;> omega

/-- readBCD succeeds exactly when len bytes remain. -/
theorem readBCD_isSome (p : BP) (len : Nat) :
    (readBCD p len).isSome ↔ p.offset + len ≤ p.buf.length := by
  unfold readBCD
  split_ifs with hc <;> simp <;> omega

/-- readASCII succeeds exactly when len bytes remain. -/
theorem readASCII_isSome (p : BP) (len : Nat) :
    (readASCII p len).isSome ↔ p.offset + len ≤ p.buf.length := by
  unfold readASCII
  split_ifs with hc <;> simp <;> omega

/-- readBytes succeeds exactly when len bytes remain. -/
theorem readBytes_isSome (p : BP) (len : Nat) :
    (readBytes p len).isSome ↔ p.offset + len ≤ p.buf.length := by
  unfold readBytes
  split_ifs with hc <;> simp <;> omega

/-- A successful readUInt8 advances the offset by one, within bounds. -/
theorem readUInt8_some (p : BP) (v : Nat) (q : BP)
    (h : readUInt8 p = some (v, q)) :
    q = ⟨p.buf, p.offset + 1⟩ ∧ p.offset + 1 ≤ p.buf.length := by
  unfold readUInt8 at h
  split_ifs at h with hc
  simp at h
  exact ⟨h.2.symm, by omega⟩

/-- A successful readUInt16BE advances the offset by two, within bounds. -/
theorem readUInt16BE_some (p : BP) (v : Nat) (q : BP)
    (h : readUInt16BE p = some (v, q)) :
    q = ⟨p.buf, p.offset + 2⟩ ∧ p.offset + 2 ≤ p.buf.length := by
  unfold readUInt16BE at h
  split_ifs at h with hc
  simp at h
  exact ⟨h.2.symm, by omega⟩

/-- A successful readUInt32BE advances the offset by four, within bounds. -/
theorem readUInt32BE_some (p : BP) (v : Nat) (q : BP)
    (h : readUInt32BE p = some (v, q)) :
    q = ⟨p.buf, p.offset + 4⟩ ∧ p.offset + 4 ≤ p.buf.length := by
  unfold readUInt32BE at h
  split_ifs at h with hc
  simp at h
  exact ⟨h.2.symm, by omega⟩

/-- A successful readBCD advances the offset by len, within bounds. -/
theorem readBCD_some (p : BP) (len : Nat) (v : List Char) (q : BP)
    (h : readBCD p len = some (v, q)) :
    q = ⟨p.buf, p.offset + len⟩ ∧ p.offset + len ≤ p.buf.length := by
  unfold readBCD at h
  split_ifs at h with hc
  simp at h
  refine ⟨h.2.symm, by omega⟩

/-- A successful readASCII advances the offset by len, within bounds. -/
theorem readASCII_some (p : BP) (len : Nat) (v : List Char) (q : BP)
    (h : readASCII p len = some (v, q)) :
    q = ⟨p.buf, p.offset + len⟩ ∧ p.offset + len ≤ p.buf.length := by
  unfold readASCII at h
  split_ifs at h with hc
  simp at h
  refine ⟨h.2.symm, by omega⟩

/-- A successful readBytes advances the offset by len, within bounds. -/
theorem readBytes_some (p : BP) (len : Nat) (v : List Nat) (q : BP)
    (h : readBytes p len = some (v, q)) :
    q = ⟨p.buf, p.offset + len⟩ ∧ p.offset + len ≤ p.buf.length := by
  unfold readBytes at h
  split_ifs at h with hc
  simp at h
  refine ⟨h.2.symm, by omega⟩

/-! ### Claim C2: parseMessage and the declared body length -/

/-- A successful header parse consumed a full fixed layout, so the header
length is available in the data, and the messageLength field is the low
ten bits of the properties word. No comparison of messageLength with the
remaining bytes is performed anywhere in the parse. -/
theorem parseHeader_facts (md : List Nat) (H : MessageHeader)
    (h : parseHeader md = some H) :
    getHeaderLength H ≤ md.length
    ∧ H.messageLength = H.messageProperties &&& 0x03FF := by
  unfold parseHeader at h
  simp only [bind, Option.bind_eq_some] at h
  obtain ⟨⟨messageId, p1⟩, e1, h⟩ := h
  obtain ⟨⟨props, p2⟩, e2, h⟩ := h
  obtain ⟨⟨deviceId, p3⟩, e3, h⟩ := h
  obtain ⟨⟨seq, p4⟩, e4, h⟩ := h
  obtain ⟨rfl, -⟩ := readUInt16BE_some _ _ _ e1
  obtain ⟨rfl, -⟩ := readUInt16BE_some _ _ _ e2
  obtain ⟨rfl, -⟩ := readBCD_some _ _ _ _ e3
  obtain ⟨rfl, hb4⟩ := readUInt16BE_some _ _ _ e4
  by_cases hfrag : (props >>> 13) &&& 1 ≠ 0
  · rw [if_pos hfrag] at h
    simp only [bind, Option.bind_eq_some] at h
    obtain ⟨⟨total, p5⟩, e5, h⟩ := h
    obtain ⟨⟨current, p6⟩, e6, h⟩ := h
    obtain ⟨rfl, -⟩ := readUInt16BE_some _ _ _ e5
    obtain ⟨rfl, hb6⟩ := readUInt16BE_some _ _ _ e6
    simp only [pure, Option.some_inj] at h
    subst h
    refine ⟨?_, rfl⟩
    unfold getHeaderLength
    simp only [Option.isSome_some, if_true]
    dsimp only at hb6
    omega
  · rw [if_neg hfrag] at h
    simp only [pure, Option.some_inj] at h
    subst h
    refine ⟨?_, rfl⟩
    unfold getHeaderLength
    dsimp only at hb4
    simp
    omega

/-- C2 amended: a successful parseMessage returns the body as exactly the
bytes of the unwrapped data after the header, of length data minus header
length; the declared messageLength is the low ten bits of the properties
word and is never compared with the remaining byte count. -/
theorem claim_C2_parse (rawBuffer : List Nat) (H : MessageHeader) (body : List Nat)
    (h : parseMessage rawBuffer = .success H body) :
    ∃ md : List Nat, unwrapMessage rawBuffer = .ok md true
      ∧ parseHeader md = some H
      ∧ getHeaderLength H ≤ md.length
      ∧ body = (md.drop (getHeaderLength H)).take (md.length - getHeaderLength H)
      ∧ body.length + getHeaderLength H = md.length
      ∧ H.messageLength = H.messageProperties &&& 0x03FF := by
  unfold parseMessage at h
  cases hu : unwrapMessage rawBuffer with
  | formatError =>
    rw [hu] at h
    exact absurd h (by simp)
  | ok md isValid =>
    rw [hu] at h
    by_cases hv : isValid = true
    · subst hv
      simp only [if_true] at h
      cases hp : parseHeader md with
      | none =>
        rw [hp] at h
        exact absurd h (by simp)
      | some header =>
        rw [hp] at h
        simp only [ParseResult.success.injEq] at h
        obtain ⟨rfl, rfl⟩ := h
        obtain ⟨hle, hml⟩ := parseHeader_facts md header hp
        refine ⟨md, rfl, hp, hle, rfl, ?_, hml⟩
        simp only [List.length_take, List.length_drop]
        omega
    · have hfv : isValid = false := by
        simpa using hv
      subst hfv
      simp at h

/-- Witness for C2 at a concrete valid frame whose body is four bytes. -/
theorem claim_C2_witness :
    ∃ md : List Nat,
      unwrapMessage (wrapMessage
          [0x01, 0x00, 0x00, 0x04, 0x12, 0x34, 0x56, 0x78, 0x90, 0x12, 0x00, 0x01,
           0xAA, 0xBB, 0xCC, 0xDD])
        = .ok md true
      ∧ parseHeader md
        = some ⟨0x0100, 4, .v2013, "123456789012".toList, 1, none, 0, 4⟩
      ∧ getHeaderLength ⟨0x0100, 4, .v2013, "123456789012".toList, 1, none, 0, 4⟩
          ≤ md.length
      ∧ [0xAA, 0xBB, 0xCC, 0xDD]
        = (md.drop (getHeaderLength
              ⟨0x0100, 4, .v2013, "123456789012".toList, 1, none, 0, 4⟩)).take
            (md.length - getHeaderLength
              ⟨0x0100, 4, .v2013, "123456789012".toList, 1, none, 0, 4⟩)
      ∧ ([0xAA, 0xBB, 0xCC, 0xDD] : List Nat).length
          + getHeaderLength ⟨0x0100, 4, .v2013, "123456789012".toList, 1, none, 0, 4⟩
        = md.length
      ∧ (4 : Nat) = 4 &&& 0x03FF :=
  claim_C2_parse
    (wrapMessage
      [0x01, 0x00, 0x00, 0x04, 0x12, 0x34, 0x56, 0x78, 0x90, 0x12, 0x00, 0x01,
       0xAA, 0xBB, 0xCC, 0xDD])
    ⟨0x0100, 4, .v2013, "123456789012".toList, 1, none, 0, 4⟩
    [0xAA, 0xBB, 0xCC, 0xDD]
    (by decide)

/-- Counterexample for C2 as stated: a valid frame whose properties word
declares five body bytes while no body bytes follow the header is parsed
successfully, so the declared length exceeds the zero remaining bytes. -/
theorem claim_C2_counterexample :
    parseMessage (wrapMessage
        [0x01, 0x00, 0x00, 0x05, 0x12, 0x34, 0x56, 0x78, 0x90, 0x12, 0x00, 0x01])
      = .success ⟨0x0100, 5, .v2013, "123456789012".toList, 1, none, 0, 5⟩ []
    ∧ ([0x01, 0x00, 0x00, 0x05, 0x12, 0x34, 0x56, 0x78, 0x90, 0x12, 0x00, 0x01]
        : List Nat).length = 12
    ∧ getHeaderLength ⟨0x0100, 5, .v2013, "123456789012".toList, 1, none, 0, 5⟩ = 12
    ∧ ¬ ((5 : Nat) ≤ 12 - 12) := by
  decide

/-! ### Claim C5: cursor facts of the composite decoders -/

/-- A successful location decode advances the cursor by exactly 28 bytes,
within bounds. -/
theorem deserializeLocation_some (p : BP) (l : LocationRec) (q : BP)
    (h : deserializeLocation p = some (l, q)) :
    q = ⟨p.buf, p.offset + 28⟩ ∧ p.offset + 28 ≤ p.buf.length := by
  unfold deserializeLocation at h
  simp only [bind, Option.bind_eq_some] at h
  obtain ⟨⟨a1, p1⟩, e1, h⟩ := h
  obtain ⟨⟨a2, p2⟩, e2, h⟩ := h
  obtain ⟨⟨a3, p3⟩, e3, h⟩ := h
  obtain ⟨⟨a4, p4⟩, e4, h⟩ := h
  obtain ⟨⟨a5, p5⟩, e5, h⟩ := h
  obtain ⟨⟨a6, p6⟩, e6, h⟩ := h
  obtain ⟨⟨a7, p7⟩, e7, h⟩ := h
  obtain ⟨⟨a8, p8⟩, e8, h⟩ := h
  obtain ⟨rfl, -⟩ := readUInt32BE_some _ _ _ e1
  obtain ⟨rfl, -⟩ := readUInt32BE_some _ _ _ e2
  obtain ⟨rfl, -⟩ := readUInt32BE_some _ _ _ e3
  obtain ⟨rfl, -⟩ := readUInt32BE_some _ _ _ e4
  obtain ⟨rfl, -⟩ := readUInt16BE_some _ _ _ e5
  obtain ⟨rfl, -⟩ := readUInt16BE_some _ _ _ e6
  obtain ⟨rfl, -⟩ := readUInt16BE_some _ _ _ e7
  obtain ⟨rfl, hb8⟩ := readBCD_some _ _ _ _ e8
  simp only [pure, Option.some_inj] at h
  injection h with h1 h2
  subst h1
  subst h2
  dsimp only at hb8 ⊢
  refine ⟨by simp only [BP.mk.injEq] <;> omega, by omega⟩

/-- A location decode with fewer than 28 bytes left fails. -/
theorem deserializeLocation_none (p : BP) (hlt : p.buf.length < p.offset + 28) :
    deserializeLocation p = none := by
  cases h : deserializeLocation p with
  | none => rfl
  | some r =>
    obtain ⟨-, hb⟩ := deserializeLocation_some p r.1 r.2 (by rw [h])
    omega

/-- The location count loop keeps the buffer, never rewinds, and stays in
bounds. -/
theorem deserializeLocs_progress : ∀ (n : Nat) (p : BP) (ls : List LocationRec) (q : BP),
    p.offset ≤ p.buf.length → deserializeLocs n p = some (ls, q) →
    q.buf = p.buf ∧ p.offset + 28 * n ≤ q.offset ∧ q.offset ≤ p.buf.length
  | 0, p, ls, q, hoff, h => by
    simp only [deserializeLocs, Option.some_inj] at h
    injection h with h1 h2
    subst h1
    subst h2
    exact ⟨rfl, by omega, hoff⟩
  | n + 1, p, ls, q, hoff, h => by
    simp only [deserializeLocs, bind, Option.bind_eq_some] at h
    obtain ⟨⟨l1, p1⟩, e1, h⟩ := h
    obtain ⟨⟨ls2, p2⟩, e2, h⟩ := h
    obtain ⟨rfl, hb1⟩ := deserializeLocation_some _ _ _ e1
    obtain ⟨hbuf, hadv, hle⟩ := deserializeLocs_progress n _ _ _ (by dsimp only; omega) e2
    simp only [pure, Option.some_inj] at h
    cases h
    dsimp only at hbuf hadv hle
    exact ⟨hbuf, by omega, hle⟩

/-- The parameter loop keeps the buffer, never rewinds, and stays in
bounds. -/
theorem readParams_progress : ∀ (fuel : Nat) (p : BP) (ls : List ParamRec) (q : BP),
    p.remaining ≤ fuel → p.offset ≤ p.buf.length → readParams p = some (ls, q) →
    q.buf = p.buf ∧ p.offset ≤ q.offset ∧ q.offset ≤ p.buf.length := by
  intro fuel
  induction fuel with
  | zero =>
    intro p ls q hfuel hoff h
    rw [readParams] at h
    rw [dif_neg (by omega)] at h
    simp only [Option.some_inj] at h
    cases h
    exact ⟨rfl, le_refl _, hoff⟩
  | succ m ih =>
    intro p ls q hfuel hoff h
    rw [readParams] at h
    by_cases h5 : 5 ≤ p.remaining
    · rw [dif_pos h5] at h
      split at h
      · exact absurd h (by simp)
      · rename_i pid p1 e1
        obtain ⟨rfl, hb1⟩ := readUInt32BE_some _ _ _ e1
        split at h
        · exact absurd h (by simp)
        · rename_i plen p2 e2
          obtain ⟨rfl, hb2⟩ := readUInt8_some _ _ _ e2
          split at h
          · exact absurd h (by simp)
          · rename_i pval p3 e3
            obtain ⟨rfl, hb3⟩ := readBytes_some _ _ _ _ e3
            split at h
            · exact absurd h (by simp)
            · rename_i items p4 e4
              dsimp only at e4 hb2 hb3
              have hrem : (⟨p.buf, p.offset + 4 + 1 + plen⟩ : BP).remaining ≤ m := by
                unfold BP.remaining at hfuel ⊢
                dsimp only
                omega
              obtain ⟨hbuf, hmono, hle⟩ := ih _ _ _ hrem (by dsimp only; omega) e4
              simp only [Option.some_inj] at h
              injection h with h1 h2
              subst h1
              subst h2
              dsimp only at hbuf hmono hle
              exact ⟨hbuf, by omega, hle⟩
    · rw [dif_neg h5] at h
      simp only [Option.some_inj] at h
      injection h with h1 h2
      subst h1
      subst h2
      exact ⟨rfl, le_refl _, hoff⟩

/-- A successful field decode keeps the buffer, advances the cursor at
least the minimum width of the field shape, and stays in bounds. -/
theorem deserializeField_advance (f : Field) (p : BP) (v : JSValue) (q : BP)
    (hoff : p.offset ≤ p.buf.length)
    (h : deserializeField f p = some (v, q)) :
    q.buf = p.buf ∧ p.offset + minWidthF f.type ≤ q.offset ∧ q.offset ≤ p.buf.length := by
  cases hft : f.type <;>
    simp only [deserializeField, hft, Option.map_eq_some'] at h
  case uint8 =>
    obtain ⟨⟨a, q1⟩, ha, hvq⟩ := h
    dsimp only at hvq
    injection hvq with hv hq
    subst hv
    subst hq
    obtain ⟨rfl, hb⟩ := readUInt8_some _ _ _ ha
    dsimp only
    exact ⟨rfl, by simpa [minWidthF] using hb, by omega⟩
  case uint16 =>
    obtain ⟨⟨a, q1⟩, ha, hvq⟩ := h
    dsimp only at hvq
    injection hvq with hv hq
    subst hv
    subst hq
    obtain ⟨rfl, hb⟩ := readUInt16BE_some _ _ _ ha
    dsimp only
    exact ⟨rfl, by simpa [minWidthF] using hb, by omega⟩
  case uint32 =>
    obtain ⟨⟨a, q1⟩, ha, hvq⟩ := h
    dsimp only at hvq
    injection hvq with hv hq
    subst hv
    subst hq
    obtain ⟨rfl, hb⟩ := readUInt32BE_some _ _ _ ha
    dsimp only
    exact ⟨rfl, by simpa [minWidthF] using hb, by omega⟩
  case stringFixed len =>
    obtain ⟨⟨a, q1⟩, ha, hvq⟩ := h
    dsimp only at hvq
    injection hvq with hv hq
    subst hv
    subst hq
    obtain ⟨rfl, hb⟩ := readASCII_some _ _ _ _ ha
    dsimp only
    exact ⟨rfl, by simpa [minWidthF] using hb, by omega⟩
  case stringVar =>
    obtain ⟨⟨a, q1⟩, ha, hvq⟩ := h
    dsimp only at hvq
    injection hvq with hv hq
    subst hv
    subst hq
    obtain ⟨rfl, hb⟩ := readASCII_some _ _ _ _ ha
    unfold BP.remaining at hb ⊢
    dsimp only
    refine ⟨rfl, by simp [minWidthF], by omega⟩
  case bcd len =>
    obtain ⟨⟨a, q1⟩, ha, hvq⟩ := h
    dsimp only at hvq
    injection hvq with hv hq
    subst hv
    subst hq
    obtain ⟨rfl, hb⟩ := readBCD_some _ _ _ _ ha
    dsimp only
    exact ⟨rfl, by simpa [minWidthF] using hb, by omega⟩
  case bytesVar =>
    obtain ⟨⟨a, q1⟩, ha, hvq⟩ := h
    dsimp only at hvq
    injection hvq with hv hq
    subst hv
    subst hq
    obtain ⟨rfl, hb⟩ := readBytes_some _ _ _ _ ha
    unfold BP.remaining at hb ⊢
    dsimp only
    refine ⟨rfl, by simp [minWidthF], by omega⟩
  case location =>
    obtain ⟨⟨a, q1⟩, ha, hvq⟩ := h
    dsimp only at hvq
    injection hvq with hv hq
    subst hv
    subst hq
    obtain ⟨rfl, hb⟩ := deserializeLocation_some _ _ _ ha
    dsimp only
    exact ⟨rfl, by simpa [minWidthF] using hb, by omega⟩
  case arrayLoc hasCountField =>
    cases hasCountField with
    | false =>
      simp only [if_false, Bool.false_eq_true, Option.map_eq_some'] at h
      obtain ⟨⟨ls, q1⟩, ha, hvq⟩ := h
      dsimp only at hvq
      injection hvq with hv hq
      subst hv
      subst hq
      obtain ⟨hbuf, hadv, hle⟩ := deserializeLocs_progress 1 p ls q1 hoff ha
      exact ⟨hbuf, by simpa [minWidthF] using hadv, hle⟩
    | true =>
      simp only [if_true, bind, Option.bind_eq_some] at h
      obtain ⟨⟨cnt, p1⟩, e1, h⟩ := h
      obtain ⟨rfl, hb1⟩ := readUInt16BE_some _ _ _ e1
      obtain ⟨⟨ls, p2⟩, e2, h⟩ := h
      obtain ⟨hbuf, hadv, hle⟩ := deserializeLocs_progress cnt _ _ _ (by dsimp only; omega) e2
      simp only [pure, Option.some_inj] at h
      cases h
      dsimp only at hbuf hadv hle
      exact ⟨hbuf, by simp only [minWidthF, if_true]; omega, hle⟩
  case arrayParam =>
    obtain ⟨⟨ls, q1⟩, ha, hvq⟩ := h
    dsimp only at hvq
    injection hvq with hv hq
    subst hv
    subst hq
    obtain ⟨hbuf, hadv, hle⟩ := readParams_progress p.remaining p ls q1 (le_refl _) hoff ha
    exact ⟨hbuf, by simpa [minWidthF] using hadv, hle⟩

/-- A field decode with less than the minimum width left fails. -/
theorem deserializeField_truncated (f : Field) (p : BP)
    (hlt : p.buf.length - p.offset < minWidthF f.type)
    (hoff : p.offset ≤ p.buf.length) :
    deserializeField f p = none := by
  cases h : deserializeField f p with
  | none => rfl
  | some r =>
    obtain ⟨-, hadv, hle⟩ := deserializeField_advance f p r.1 r.2 hoff (by rw [h])
    omega

/-- With strictly less than the minimum fixed width of the field list
remaining, the field walk fails, naming one of the schema fields. -/
theorem deserializeFields_truncated :
    ∀ (fields : List Field) (p : BP),
      p.buf.length - p.offset < minWidth fields →
      p.offset ≤ p.buf.length →
      ∃ name, name ∈ fields.map Field.name
        ∧ deserializeFields fields p = .error name
  | [], p, hlt, _ => by
    simp [minWidth] at hlt
  | f :: rest, p, hlt, hoff => by
    cases hres : deserializeField f p with
    | none =>
      exact ⟨f.name, by simp, by simp [deserializeFields, hres]⟩
    | some r =>
      obtain ⟨v, q⟩ := r
      obtain ⟨hbuf, hadv, hle⟩ := deserializeField_advance f p v q hoff hres
      have hlt2 : q.buf.length - q.offset < minWidth rest := by
        rw [hbuf]
        simp only [minWidth, List.map_cons, List.sum_cons] at hlt
        unfold minWidth
        omega
      obtain ⟨name, hmem, herr⟩ :=
        deserializeFields_truncated rest q hlt2 (hbuf ▸ hle)
      exact ⟨name, by simp [hmem], by simp [deserializeFields, hres, herr]⟩

/-- C5: a body shorter than the minimum fixed width of its schema makes
deserialization fail with an error naming one of the schema fields, which
validateMessage surfaces as an invalid result; and every primitive read
succeeds exactly when the requested span lies inside the buffer, so no
read ever touches a byte out of bounds. -/
theorem claim_C5_truncation :
    (∀ (messageId : Nat) (st : MessageStructure) (body : List Nat),
      lookupStructure messageId = some st →
      body.length < minWidth st.fields →
      ∃ name, name ∈ st.fields.map Field.name
        ∧ validateMessage messageId body
          = ⟨false, some (.deserializeFailed name), none⟩
        ∧ deserialize messageId body = .error (.fieldError name))
    ∧ (∀ p : BP, (readUInt8 p).isSome ↔ p.offset + 1 ≤ p.buf.length)
    ∧ (∀ p : BP, (readUInt16BE p).isSome ↔ p.offset + 2 ≤ p.buf.length)
    ∧ (∀ p : BP, (readUInt32BE p).isSome ↔ p.offset + 4 ≤ p.buf.length)
    ∧ (∀ (p : BP) (len : Nat), (readBCD p len).isSome ↔ p.offset + len ≤ p.buf.length)
    ∧ (∀ (p : BP) (len : Nat), (readASCII p len).isSome ↔ p.offset + len ≤ p.buf.length)
    ∧ (∀ (p : BP) (len : Nat), (readBytes p len).isSome ↔ p.offset + len ≤ p.buf.length) := by
  refine ⟨?_, readUInt8_isSome, readUInt16BE_isSome, readUInt32BE_isSome,
    readBCD_isSome, readASCII_isSome, readBytes_isSome⟩
  intro messageId st body hst hlen
  obtain ⟨name, hmem, herr⟩ :=
    deserializeFields_truncated st.fields ⟨body, 0⟩ (by dsimp only; omega) (by simp)
  refine ⟨name, hmem, ?_, ?_⟩
  · unfold validateMessage
    rw [hst]
    simp only [herr]
  · unfold deserialize
    rw [hst]
    simp only [herr]

/-- Witness for C5: the five byte general response schema rejects an empty
body, naming its first field, and a concrete read bound check. -/
theorem claim_C5_witness :
    (∃ name, name ∈ platformGeneralResponseStructure.fields.map Field.name
      ∧ validateMessage 0x8001 []
        = ⟨false, some (.deserializeFailed name), none⟩
      ∧ deserialize 0x8001 [] = .error (.fieldError name))
    ∧ ((readUInt16BE ⟨[7], 0⟩).isSome ↔ 0 + 2 ≤ ([7] : List Nat).length) :=
  ⟨(claim_C5_truncation.1 0x8001 platformGeneralResponseStructure [] (by decide) (by decide)),
   claim_C5_truncation.2.2.1 ⟨[7], 0⟩⟩

/-! ### Claim C1: character and byte level round trips -/

/-- A digit character is one of the ten digits. -/
theorem char_digit_cases (c : Char) (h : c.isDigit = true) :
    c = '0' ∨ c = '1' ∨ c = '2' ∨ c = '3' ∨ c = '4'
    ∨ c = '5' ∨ c = '6' ∨ c = '7' ∨ c = '8' ∨ c = '9' := by
  have hb : 48 ≤ c.toNat ∧ c.toNat ≤ 57 := by
    simpa [Char.isDigit] using h
  have hc : c = Char.ofNat c.toNat := (Char.ofNat_toNat c).symm
  have hor : c.toNat = 48 ∨ c.toNat = 49 ∨ c.toNat = 50 ∨ c.toNat = 51
      ∨ c.toNat = 52 ∨ c.toNat = 53 ∨ c.toNat = 54 ∨ c.toNat = 55
      ∨ c.toNat = 56 ∨ c.toNat = 57 := by omega
  rcases hor with h1|h1|h1|h1|h1|h1|h1|h1|h1|h1 <;>
    rw [h1] at hc <;> rw [hc] <;> decide

/-- Packing two decimal digits and reading the nibbles back gives the two
characters. -/
theorem digit_pair (a b : Char) (ha : a.isDigit = true) (hb : b.isDigit = true) :
    nibbleChars ((jsDigit a <<< 4) ||| jsDigit b) = [a, b] := by
  rcases char_digit_cases a ha with rfl|rfl|rfl|rfl|rfl|rfl|rfl|rfl|rfl|rfl <;>
    rcases char_digit_cases b hb with rfl|rfl|rfl|rfl|rfl|rfl|rfl|rfl|rfl|rfl <;>
    decide

/-- Pairwise packed digit text decodes back to itself. -/
theorem bcdPairs_flatten : ∀ (s : List Char), s.all Char.isDigit = true →
    s.length % 2 = 0 → ((bcdPairs s).map nibbleChars).flatten = s
  | [], _, _ => rfl
  | [a], _, hlen => by
    simp at hlen
  | a :: b :: rest, hdig, hlen => by
    simp only [List.all_cons, Bool.and_eq_true] at hdig
    obtain ⟨ha, hb, hrest⟩ := hdig
    have hrec := bcdPairs_flatten rest hrest (by simp at hlen ⊢; omega)
    have hstep : bcdPairs (a :: b :: rest)
        = ((jsDigit a <<< 4) ||| jsDigit b) :: bcdPairs rest := rfl
    rw [hstep, List.map_cons, List.flatten_cons, digit_pair a b ha hb, hrec]
    rfl

/-- For well formed BCD text the packing loop is exactly pairwise packing. -/
theorem stringToBCD_digits (s : List Char) (len : Nat)
    (h : bcdDigits s len = true) : stringToBCD s len = bcdPairs s := by
  simp only [bcdDigits, Bool.and_eq_true, decide_eq_true_eq] at h
  obtain ⟨hlen, -⟩ := h
  rw [stringToBCD_eq]
  unfold padStart
  rw [hlen]
  simp
  rw [← hlen, List.take_length]

/-- BCD text survives the encode and decode pair. -/
theorem bcd_roundtrip (s : List Char) (len : Nat) (h : bcdDigits s len = true) :
    ((stringToBCD s len).map nibbleChars).flatten = s := by
  simp only [bcdDigits, Bool.and_eq_true, decide_eq_true_eq] at h
  rw [stringToBCD_digits s len (by simp [bcdDigits, h.1, h.2])]
  exact bcdPairs_flatten s h.2 (by omega)

/-- A seven bit character survives the latin1 encode and ascii decode
pair. -/
theorem asciiDecode_encodeLatin1 (c : Char) (h : c.toNat < 128) :
    asciiDecode (encodeLatin1 c) = c := by
  unfold asciiDecode encodeLatin1
  rw [Nat.and_pow_two_sub_one_eq_mod c.toNat 8, Nat.mod_eq_of_lt (by omega),
      Nat.and_pow_two_sub_one_eq_mod c.toNat 7, Nat.mod_eq_of_lt h]
  exact Char.ofNat_toNat c

/-- A seven bit string survives the encode and decode pair. -/
theorem asciiList_roundtrip (s : List Char) (h : asciiOnly s = true) :
    (s.map encodeLatin1).map asciiDecode = s := by
  simp only [asciiOnly, List.all_eq_true, decide_eq_true_eq] at h
  rw [List.map_map]
  have hpt : ∀ c ∈ s, (asciiDecode ∘ encodeLatin1) c = c := by
    intro c hc
    exact asciiDecode_encodeLatin1 c (h c hc)
  rw [List.map_congr_left hpt]
  simp

/-! ### Claim C1: positioned reads over a serialized buffer -/

/-- Reading one byte at the border between a prefix and a byte. -/
theorem readUInt8_at (B pre rest : List Nat) (b : Nat) (off : Nat)
    (hB : B = pre ++ b :: rest) (hoff : off = pre.length) :
    readUInt8 ⟨B, off⟩ = some (b, ⟨B, off + 1⟩) := by
  subst hB
  subst hoff
  unfold readUInt8
  rw [if_neg (by simp)]
  have hg : (pre ++ b :: rest).getD pre.length 0 = b := by
    rw [List.getD_append_right pre (b :: rest) 0 pre.length (le_refl _)]
    simp
  rw [hg]

/-- Reading a big endian 16 bit value at its position. -/
theorem readUInt16BE_at (B pre rest : List Nat) (n : Nat) (off : Nat)
    (hn : n < 65536) (hB : B = pre ++ (be2 n ++ rest)) (hoff : off = pre.length) :
    readUInt16BE ⟨B, off⟩ = some (n, ⟨B, off + 2⟩) := by
  subst hB
  subst hoff
  unfold readUInt16BE
  rw [if_neg (by simp [be2])]
  have hg0 : (pre ++ (be2 n ++ rest)).getD pre.length 0 = n / 256 := by
    rw [List.getD_append_right pre (be2 n ++ rest) 0 pre.length (le_refl _)]
    simp [be2]
  have hg1 : (pre ++ (be2 n ++ rest)).getD (pre.length + 1) 0 = n % 256 := by
    rw [List.getD_append_right pre (be2 n ++ rest) 0 (pre.length + 1) (by omega)]
    simp [be2]
  rw [hg0, hg1]
  have hval : 256 * (n / 256) + n % 256 = n := by omega
  rw [hval]

/-- Reading a big endian 32 bit value at its position. -/
theorem readUInt32BE_at (B pre rest : List Nat) (n : Nat) (off : Nat)
    (hn : n < 4294967296) (hB : B = pre ++ (be4 n ++ rest)) (hoff : off = pre.length) :
    readUInt32BE ⟨B, off⟩ = some (n, ⟨B, off + 4⟩) := by
  subst hB
  subst hoff
  unfold readUInt32BE
  rw [if_neg (by simp [be4])]
  have hg0 : (pre ++ (be4 n ++ rest)).getD pre.length 0 = n / 16777216 := by
    rw [List.getD_append_right pre (be4 n ++ rest) 0 pre.length (le_refl _)]
    simp [be4]
  have hg1 : (pre ++ (be4 n ++ rest)).getD (pre.length + 1) 0 = n / 65536 % 256 := by
    rw [List.getD_append_right pre (be4 n ++ rest) 0 (pre.length + 1) (by omega)]
    simp [be4]
  have hg2 : (pre ++ (be4 n ++ rest)).getD (pre.length + 2) 0 = n / 256 % 256 := by
    rw [List.getD_append_right pre (be4 n ++ rest) 0 (pre.length + 2) (by omega)]
    simp [be4]
  have hg3 : (pre ++ (be4 n ++ rest)).getD (pre.length + 3) 0 = n % 256 := by
    rw [List.getD_append_right pre (be4 n ++ rest) 0 (pre.length + 3) (by omega)]
    simp [be4]
  rw [hg0, hg1, hg2, hg3]
  have hval : 16777216 * (n / 16777216) + 65536 * (n / 65536 % 256)
      + 256 * (n / 256 % 256) + n % 256 = n := by omega
  rw [hval]

/-- Reading a raw byte span at its position. -/
theorem readBytes_at (B pre mid rest : List Nat) (off len : Nat)
    (hB : B = pre ++ (mid ++ rest)) (hoff : off = pre.length) (hlen : len = mid.length) :
    readBytes ⟨B, off⟩ len = some (mid, ⟨B, off + len⟩) := by
  subst hB
  subst hoff
  subst hlen
  unfold readBytes
  rw [if_neg (by simp; omega)]
  rw [List.drop_left pre (mid ++ rest), List.take_left mid rest]

/-- Reading an ascii span at its position. -/
theorem readASCII_at (B pre mid rest : List Nat) (off len : Nat)
    (hB : B = pre ++ (mid ++ rest)) (hoff : off = pre.length) (hlen : len = mid.length) :
    readASCII ⟨B, off⟩ len
      = some ((mid.map asciiDecode).filter (fun c => c ≠ Char.ofNat 0),
          ⟨B, off + len⟩) := by
  subst hB
  subst hoff
  subst hlen
  unfold readASCII
  rw [if_neg (by simp; omega)]
  rw [List.drop_left pre (mid ++ rest), List.take_left mid rest]

/-- Reading well formed BCD text at its position. -/
theorem readBCD_at (B pre rest : List Nat) (s : List Char) (len off : Nat)
    (hdig : bcdDigits s len = true)
    (hB : B = pre ++ (stringToBCD s len ++ rest)) (hoff : off = pre.length) :
    readBCD ⟨B, off⟩ len = some (s, ⟨B, off + len⟩) := by
  subst hB
  subst hoff
  unfold readBCD
  rw [if_neg (by simp [stringToBCD_length]; omega)]
  rw [List.drop_left pre (stringToBCD s len ++ rest)]
  have htake : (stringToBCD s len ++ rest).take len = stringToBCD s len := by
    conv in List.take len => rw [show len = (stringToBCD s len).length from (stringToBCD_length s len).symm]
    exact List.take_left _ _
  rw [htake, bcd_roundtrip s len hdig]

/-! ### Claim C1: composite decoders over serialized segments -/

/-- A well formed location record serializes to its 28 wire bytes. -/
theorem serializeLocation_wf (l : LocationRec) (hwf : locWF l = true) :
    serializeLocation l
      = .ok (be4 l.alarmFlag ++ be4 l.statusFlag ++ be4 l.latitude
          ++ be4 l.longitude ++ be2 l.altitude ++ be2 l.speed ++ be2 l.direction
          ++ stringToBCD l.timestamp 6) := by
  simp only [locWF, Bool.and_eq_true, decide_eq_true_eq] at hwf
  obtain ⟨⟨⟨⟨⟨⟨⟨h1, h2⟩, h3⟩, h4⟩, h5⟩, h6⟩, h7⟩, -⟩ := hwf
  unfold serializeLocation
  rw [if_pos ⟨h1, h2, h3, h4, h5, h6, h7⟩]

/-- Decoding a serialized well formed location at its position returns the
record and advances by 28. -/
theorem deserializeLocation_at (l : LocationRec) (B pre rest : List Nat) (off : Nat)
    (hwf : locWF l = true)
    (hB : B = pre ++ (be4 l.alarmFlag ++ (be4 l.statusFlag ++ (be4 l.latitude
        ++ (be4 l.longitude ++ (be2 l.altitude ++ (be2 l.speed ++ (be2 l.direction
        ++ (stringToBCD l.timestamp 6 ++ rest)))))))))
    (hoff : off = pre.length) :
    deserializeLocation ⟨B, off⟩ = some (l, ⟨B, off + 28⟩) := by
  have hwfc := hwf
  simp only [locWF, Bool.and_eq_true, decide_eq_true_eq] at hwfc
  obtain ⟨⟨⟨⟨⟨⟨⟨h1, h2⟩, h3⟩, h4⟩, h5⟩, h6⟩, h7⟩, hts⟩ := hwfc
  unfold deserializeLocation
  rw [readUInt32BE_at B pre _ l.alarmFlag off h1 hB hoff]
  simp only [bind, Option.some_bind]
  rw [readUInt32BE_at B (pre ++ be4 l.alarmFlag) (be4 l.latitude ++ (be4 l.longitude ++ (be2 l.altitude ++ (be2 l.speed ++ (be2 l.direction ++ (stringToBCD l.timestamp 6 ++ rest)))))) l.statusFlag (off + 4) h2
      (by rw [hB]; simp) (by simp [hoff, be4])]
  simp only [bind, Option.some_bind]
  rw [readUInt32BE_at B (pre ++ be4 l.alarmFlag ++ be4 l.statusFlag) (be4 l.longitude ++ (be2 l.altitude ++ (be2 l.speed ++ (be2 l.direction ++ (stringToBCD l.timestamp 6 ++ rest)))))
      l.latitude (off + 4 + 4) h3
      (by rw [hB]; simp) (by simp [hoff, be4])]
  simp only [bind, Option.some_bind]
  rw [readUInt32BE_at B (pre ++ be4 l.alarmFlag ++ be4 l.statusFlag
        ++ be4 l.latitude) (be2 l.altitude ++ (be2 l.speed ++ (be2 l.direction ++ (stringToBCD l.timestamp 6 ++ rest)))) l.longitude (off + 4 + 4 + 4) h4
      (by rw [hB]; simp) (by simp [hoff, be4])]
  simp only [bind, Option.some_bind]
  rw [readUInt16BE_at B (pre ++ be4 l.alarmFlag ++ be4 l.statusFlag
        ++ be4 l.latitude ++ be4 l.longitude) (be2 l.speed ++ (be2 l.direction ++ (stringToBCD l.timestamp 6 ++ rest))) l.altitude (off + 4 + 4 + 4 + 4) h5
      (by rw [hB]; simp) (by simp [hoff, be4])]
  simp only [bind, Option.some_bind]
  rw [readUInt16BE_at B (pre ++ be4 l.alarmFlag ++ be4 l.statusFlag
        ++ be4 l.latitude ++ be4 l.longitude ++ be2 l.altitude) (be2 l.direction ++ (stringToBCD l.timestamp 6 ++ rest)) l.speed
      (off + 4 + 4 + 4 + 4 + 2) h6
      (by rw [hB]; simp) (by simp [hoff, be4, be2])]
  simp only [bind, Option.some_bind]
  rw [readUInt16BE_at B (pre ++ be4 l.alarmFlag ++ be4 l.statusFlag
        ++ be4 l.latitude ++ be4 l.longitude ++ be2 l.altitude ++ be2 l.speed) (stringToBCD l.timestamp 6 ++ rest)
      l.direction (off + 4 + 4 + 4 + 4 + 2 + 2) h7
      (by rw [hB]; simp) (by simp [hoff, be4, be2])]
  simp only [bind, Option.some_bind]
  rw [readBCD_at B (pre ++ be4 l.alarmFlag ++ be4 l.statusFlag
        ++ be4 l.latitude ++ be4 l.longitude ++ be2 l.altitude ++ be2 l.speed
        ++ be2 l.direction) rest l.timestamp 6 (off + 4 + 4 + 4 + 4 + 2 + 2 + 2)
      hts
      (by rw [hB]; simp) (by simp [hoff, be4, be2])]
  simp only [bind, Option.some_bind, pure]

/-- Decoding one serialized location as a singleton array segment. -/
theorem deserializeLocs_one_at (l : LocationRec) (B pre rest : List Nat) (off : Nat)
    (hwf : locWF l = true)
    (hB : B = pre ++ (be4 l.alarmFlag ++ (be4 l.statusFlag ++ (be4 l.latitude
        ++ (be4 l.longitude ++ (be2 l.altitude ++ (be2 l.speed ++ (be2 l.direction
        ++ (stringToBCD l.timestamp 6 ++ rest)))))))))
    (hoff : off = pre.length) :
    deserializeLocs 1 ⟨B, off⟩ = some ([l], ⟨B, off + 28⟩) := by
  show (deserializeLocs (0 + 1) ⟨B, off⟩) = some ([l], ⟨B, off + 28⟩)
  unfold deserializeLocs
  rw [deserializeLocation_at l B pre rest off hwf hB hoff]
  simp [deserializeLocs]

/-- Unfolding the parameter loop at its stop condition. -/
theorem readParams_stop (p : BP) (h5 : ¬ 5 ≤ p.remaining) :
    readParams p = some ([], p) := by
  rw [readParams, dif_neg h5]

/-- Unfolding one successful pass of the parameter loop. -/
theorem readParams_cons (p : BP) (h5 : 5 ≤ p.remaining)
    (pid : Nat) (p1 : BP) (e1 : readUInt32BE p = some (pid, p1))
    (plen : Nat) (p2 : BP) (e2 : readUInt8 p1 = some (plen, p2))
    (pval : List Nat) (p3 : BP) (e3 : readBytes p2 plen = some (pval, p3)) :
    readParams p = (readParams p3).map
      (fun r => (⟨pid, plen, pval⟩ :: r.1, r.2)) := by
  rw [readParams, dif_pos h5]
  split
  · rename_i heq
    rw [e1] at heq
    exact absurd heq (by simp)
  · rename_i a b heq
    rw [e1] at heq
    injection heq with heq
    injection heq with hA hB
    subst hA
    subst hB
    split
    · rename_i heq2
      rw [e2] at heq2
      exact absurd heq2 (by simp)
    · rename_i a2 b2 heq2
      rw [e2] at heq2
      injection heq2 with heq2
      injection heq2 with hA2 hB2
      subst hA2
      subst hB2
      split
      · rename_i heq3
        rw [e3] at heq3
        exact absurd heq3 (by simp)
      · rename_i a3 b3 heq3
        rw [e3] at heq3
        injection heq3 with heq3
        injection heq3 with hA3 hB3
        subst hA3
        subst hB3
        cases hrec : readParams p3 with
        | none => simp [hrec]
        | some r => simp [hrec]

/-- A well formed parameter list serializes by records. -/
theorem serializeParamArray_cons_wf (q : ParamRec) (ps : List ParamRec)
    (bs' : List Nat) (hq : paramWF q = true)
    (hser' : serializeParamArray ps = .ok bs') :
    serializeParamArray (q :: ps)
      = .ok (be4 q.id ++ [q.length] ++ q.value ++ bs') := by
  simp only [paramWF, Bool.and_eq_true, decide_eq_true_eq] at hq
  unfold serializeParamArray
  rw [if_pos ⟨hq.1.1, hq.1.2⟩]
  rw [hser']
  rfl

/-- Decoding a serialized well formed parameter list consumes it whole. -/
theorem readParams_at : ∀ (ps : List ParamRec) (bs B pre : List Nat) (off : Nat),
    ps.all paramWF = true → serializeParamArray ps = .ok bs →
    B = pre ++ bs → off = pre.length →
    readParams ⟨B, off⟩ = some (ps, ⟨B, off + bs.length⟩)
  | [], bs, B, pre, off, _, hser, hB, hoff => by
    simp only [serializeParamArray] at hser
    injection hser with hser
    subst hser
    subst hB
    rw [readParams_stop ⟨pre ++ [], off⟩ (by simp [BP.remaining]; omega)]
    simp
  | q :: ps', bs, B, pre, off, hall, hser, hB, hoff => by
    simp only [List.all_cons, Bool.and_eq_true] at hall
    obtain ⟨hq, hall'⟩ := hall
    have hqc := hq
    simp only [paramWF, Bool.and_eq_true, decide_eq_true_eq] at hqc
    cases hser' : serializeParamArray ps' with
    | error e =>
      rw [serializeParamArray, if_pos ⟨hqc.1.1, hqc.1.2⟩, hser'] at hser
      exact absurd hser (by simp [Except.bind])
    | ok bs' =>
      rw [serializeParamArray_cons_wf q ps' bs' hq hser'] at hser
      injection hser with hser
      subst hser
      subst hB
      subst hoff
      have hlv : q.value.length = q.length := hqc.2
      have h5 : 5 ≤ (⟨pre ++ (be4 q.id ++ [q.length] ++ q.value ++ bs'),
          pre.length⟩ : BP).remaining := by
        simp [BP.remaining, be4]
      have e1 : readUInt32BE ⟨pre ++ (be4 q.id ++ [q.length] ++ q.value ++ bs'),
          pre.length⟩ = some (q.id, ⟨pre ++ (be4 q.id ++ [q.length] ++ q.value ++ bs'),
            pre.length + 4⟩) :=
        readUInt32BE_at _ pre ([q.length] ++ q.value ++ bs') q.id pre.length
          hqc.1.1 (by simp) rfl
      have e2 : readUInt8 ⟨pre ++ (be4 q.id ++ [q.length] ++ q.value ++ bs'),
          pre.length + 4⟩ = some (q.length,
            ⟨pre ++ (be4 q.id ++ [q.length] ++ q.value ++ bs'), pre.length + 4 + 1⟩) :=
        readUInt8_at _ (pre ++ be4 q.id) (q.value ++ bs') q.length (pre.length + 4)
          (by simp) (by simp [be4])

      have e3 : readBytes ⟨pre ++ (be4 q.id ++ [q.length] ++ q.value ++ bs'),
          pre.length + 4 + 1⟩ q.length = some (q.value,
            ⟨pre ++ (be4 q.id ++ [q.length] ++ q.value ++ bs'),
              pre.length + 4 + 1 + q.length⟩) :=
        readBytes_at _ (pre ++ be4 q.id ++ [q.length]) q.value bs' (pre.length + 4 + 1)
          q.length (by simp) (by simp [be4]) hlv.symm
      rw [readParams_cons _ h5 _ _ e1 _ _ e2 _ _ e3]
      have hrec := readParams_at ps' bs'
        (pre ++ (be4 q.id ++ [q.length] ++ q.value ++ bs'))
        (pre ++ be4 q.id ++ [q.length] ++ q.value)
        (pre.length + 4 + 1 + q.length) hall' hser' (by simp)
        (by simp [be4]; omega)
      rw [hrec]
      simp only [Option.map_some']
      have hoffs : pre.length + 4 + 1 + q.length + bs'.length
          = pre.length + (be4 q.id ++ [q.length] ++ q.value ++ bs').length := by
        simp [be4]
        omega
      rw [hoffs]

/-! ### Claim C1: the per field round trip -/

/-- NUL padding disappears in the NUL filter. -/
theorem filter_replicate_nul (n : Nat) :
    (List.replicate n (Char.ofNat 0)).filter (fun c => c ≠ Char.ofNat 0) = [] := by
  induction n with
  | zero => rfl
  | succ m ih => simp [List.replicate_succ, ih]

/-- Decoding a field from its own serialized bytes at its position yields
the NUL trim normalized value and advances by exactly those bytes; a
variable length field requires the segment to end the buffer. -/
theorem deserializeField_roundtrip (f : Field) (v : JSValue) (bs : List Nat)
    (B pre rest : List Nat) (off : Nat)
    (hser : serializeField f v = .ok bs)
    (hval : validateFieldType f v = true)
    (hwf : serWF f v = true)
    (hvar : isVarType f.type = true → rest = [])
    (hB : B = pre ++ (bs ++ rest)) (hoff : off = pre.length) :
    deserializeField f ⟨B, off⟩
      = some (normalizeVal f.type v, ⟨B, off + bs.length⟩) := by
  cases hft : f.type with
  | uint8 =>
    cases v <;> simp only [serializeField, hft] at hser <;>
      try exact Except.noConfusion hser
    rename_i n
    split_ifs at hser with hn
    injection hser with hser
    subst hser
    simp only [deserializeField, hft]
    rw [readUInt8_at B pre rest n off (by rw [hB]; simp) hoff]
    simp [normalizeVal]
  | uint16 =>
    cases v <;> simp only [serializeField, hft] at hser <;>
      try exact Except.noConfusion hser
    rename_i n
    split_ifs at hser with hn
    injection hser with hser
    subst hser
    simp only [deserializeField, hft]
    rw [readUInt16BE_at B pre rest n off hn (by rw [hB]) hoff]
    simp [normalizeVal, be2]
  | uint32 =>
    cases v <;> simp only [serializeField, hft] at hser <;>
      try exact Except.noConfusion hser
    rename_i n
    split_ifs at hser with hn
    injection hser with hser
    subst hser
    simp only [deserializeField, hft]
    rw [readUInt32BE_at B pre rest n off hn (by rw [hB]) hoff]
    simp [normalizeVal, be4]
  | stringFixed len =>
    cases v <;> simp only [serializeField, hft] at hser <;>
      try exact Except.noConfusion hser
    rename_i s
    simp only [serWF, hft, Bool.and_eq_true, decide_eq_true_eq] at hwf
    obtain ⟨hascii, hsl⟩ := hwf
    injection hser with hser
    rw [List.take_all_of_le hsl] at hser
    subst hser
    simp only [deserializeField, hft]
    rw [readASCII_at B pre (s.map encodeLatin1 ++ List.replicate (len - s.length) 0)
        rest off len (by rw [hB]) hoff
        (by simp; omega)]
    rw [List.map_append, asciiList_roundtrip s hascii]
    have hrepl : (List.replicate (len - s.length) (0 : Nat)).map asciiDecode
        = List.replicate (len - s.length) (Char.ofNat 0) := by
      rw [List.map_replicate, show asciiDecode 0 = Char.ofNat 0 by decide]
    rw [hrepl, List.filter_append, filter_replicate_nul, List.append_nil]
    simp [normalizeVal]
    omega
  | stringVar =>
    cases v <;> simp only [serializeField, hft] at hser <;>
      try exact Except.noConfusion hser
    rename_i s
    simp only [serWF, hft] at hwf
    injection hser with hser
    subst hser
    have hrest : rest = [] := hvar (by rw [hft]; rfl)
    subst hrest
    simp only [deserializeField, hft]
    have hrem : (⟨B, off⟩ : BP).remaining = (s.map encodeLatin1).length := by
      simp [BP.remaining, hB, hoff]
    rw [hrem]
    rw [readASCII_at B pre (s.map encodeLatin1) [] off (s.map encodeLatin1).length
        hB hoff rfl]
    rw [asciiList_roundtrip s hwf]
    simp [normalizeVal]
  | bcd len =>
    cases v <;> simp only [serializeField, hft] at hser <;>
      try exact Except.noConfusion hser
    rename_i s
    simp only [serWF, hft] at hwf
    injection hser with hser
    subst hser
    simp only [deserializeField, hft]
    rw [readBCD_at B pre rest s len off hwf (by rw [hB]) hoff]
    simp [normalizeVal, stringToBCD_length]
  | bytesVar =>
    cases v <;> simp only [serializeField, hft] at hser <;>
      try exact Except.noConfusion hser
    rename_i b
    injection hser with hser
    subst hser
    have hrest : rest = [] := hvar (by rw [hft]; rfl)
    subst hrest
    simp only [deserializeField, hft]
    have hrem : (⟨B, off⟩ : BP).remaining = b.length := by
      simp [BP.remaining, hB, hoff]
    rw [hrem]
    rw [readBytes_at B pre b [] off b.length hB hoff rfl]
    simp [normalizeVal]
  | location =>
    cases v <;> simp only [serializeField, hft] at hser <;>
      try exact Except.noConfusion hser
    rename_i l
    simp only [serWF, hft] at hwf
    rw [serializeLocation_wf l hwf] at hser
    injection hser with hser
    subst hser
    simp only [deserializeField, hft]
    rw [deserializeLocation_at l B pre rest off hwf (by rw [hB]; simp) hoff]
    simp only [Option.map_some']
    have hlen : (be4 l.alarmFlag ++ be4 l.statusFlag ++ be4 l.latitude
        ++ be4 l.longitude ++ be2 l.altitude ++ be2 l.speed ++ be2 l.direction
        ++ stringToBCD l.timestamp 6).length = 28 := by
      simp [be4, be2, stringToBCD_length]
    rw [hlen]
    simp [normalizeVal]
  | arrayLoc hasCountField =>
    cases v <;> simp only [serializeField, hft] at hser <;>
      try exact Except.noConfusion hser
    rename_i ls
    cases hasCountField with
    | true => exact absurd hwf (by simp [serWF, hft])
    | false =>
      match ls with
      | [] => exact absurd hwf (by simp [serWF, hft])
      | _ :: _ :: _ => exact absurd hwf (by simp [serWF, hft])
      | [l] =>
        simp only [serWF, hft] at hwf
        simp only [serializeLocArray, serializeLocation_wf l hwf] at hser
        have hser2 : Except.ok ((be4 l.alarmFlag ++ be4 l.statusFlag ++ be4 l.latitude
            ++ be4 l.longitude ++ be2 l.altitude ++ be2 l.speed ++ be2 l.direction
            ++ stringToBCD l.timestamp 6) ++ []) = (Except.ok bs : Except SerErr (List Nat)) := hser
        injection hser2 with hser2
        subst hser2
        simp only [deserializeField, hft, Bool.false_eq_true, if_false]
        rw [deserializeLocs_one_at l B pre rest off hwf (by rw [hB]; simp) hoff]
        simp only [Option.map_some']
        have hlen : ((be4 l.alarmFlag ++ be4 l.statusFlag ++ be4 l.latitude
            ++ be4 l.longitude ++ be2 l.altitude ++ be2 l.speed ++ be2 l.direction
            ++ stringToBCD l.timestamp 6) ++ []).length = 28 := by
          simp [be4, be2, stringToBCD_length]
        rw [hlen]
        simp [normalizeVal]
  | arrayParam =>
    cases v <;> simp only [serializeField, hft] at hser <;>
      try exact Except.noConfusion hser
    rename_i ps
    simp only [serWF, hft] at hwf
    have hrest : rest = [] := hvar (by rw [hft]; rfl)
    subst hrest
    simp only [deserializeField, hft]
    rw [readParams_at ps bs B pre off hwf hser (by rw [hB]; simp) hoff]
    simp [normalizeVal]

/-! ### Claim C1: the field walk round trip -/

/-- A validated, well formed parameter list always serializes. -/
theorem serializeParamArray_ok : ∀ (ps : List ParamRec),
    ps.all paramWF = true → ∃ bs, serializeParamArray ps = .ok bs
  | [], _ => ⟨[], rfl⟩
  | q :: ps', hall => by
    simp only [List.all_cons, Bool.and_eq_true] at hall
    obtain ⟨bs', hbs'⟩ := serializeParamArray_ok ps' hall.2
    exact ⟨_, serializeParamArray_cons_wf q ps' bs' hall.1 hbs'⟩

/-- A validated, well formed value always serializes. -/
theorem serializeField_ok (f : Field) (v : JSValue)
    (hval : validateFieldType f v = true) (hwf : serWF f v = true) :
    ∃ bs, serializeField f v = .ok bs := by
  cases hft : f.type with
  | uint8 =>
    cases v <;> simp only [serWF, hft] at hwf <;> try exact Bool.noConfusion hwf
    rename_i n
    simp only [validateFieldType, hft, decide_eq_true_eq] at hval
    exact ⟨[n], by simp only [serializeField, hft]; rw [if_pos (by omega)]⟩
  | uint16 =>
    cases v <;> simp only [serWF, hft] at hwf <;> try exact Bool.noConfusion hwf
    rename_i n
    simp only [validateFieldType, hft, decide_eq_true_eq] at hval
    exact ⟨be2 n, by simp only [serializeField, hft]; rw [if_pos (by omega)]⟩
  | uint32 =>
    cases v <;> simp only [serWF, hft] at hwf <;> try exact Bool.noConfusion hwf
    rename_i n
    simp only [validateFieldType, hft, decide_eq_true_eq] at hval
    exact ⟨be4 n, by simp only [serializeField, hft]; rw [if_pos (by omega)]⟩
  | stringFixed len =>
    cases v <;> simp only [serWF, hft] at hwf <;> try exact Bool.noConfusion hwf
    rename_i s
    exact ⟨List.map encodeLatin1 (List.take len s) ++ List.replicate (len - s.length) 0,
      by simp only [serializeField, hft]⟩
  | stringVar =>
    cases v <;> simp only [serWF, hft] at hwf <;> try exact Bool.noConfusion hwf
    rename_i s
    exact ⟨List.map encodeLatin1 s, by simp only [serializeField, hft]⟩
  | bcd len =>
    cases v <;> simp only [serWF, hft] at hwf <;> try exact Bool.noConfusion hwf
    rename_i s
    exact ⟨stringToBCD s len, by simp only [serializeField, hft]⟩
  | bytesVar =>
    cases v <;> simp only [serWF, hft] at hwf <;> try exact Bool.noConfusion hwf
    rename_i b
    exact ⟨b, by simp only [serializeField, hft]⟩
  | location =>
    cases v <;> simp only [serWF, hft] at hwf <;> try exact Bool.noConfusion hwf
    rename_i l
    exact ⟨_, by simp only [serializeField, hft]; exact serializeLocation_wf l hwf⟩
  | arrayLoc hasCountField =>
    cases v <;> simp only [serWF, hft] at hwf <;> try exact Bool.noConfusion hwf
    rename_i ls
    cases hasCountField with
    | true => simp at hwf
    | false =>
      match ls with
      | [] => simp at hwf
      | _ :: _ :: _ => simp at hwf
      | [l] =>
        simp only at hwf
        refine ⟨be4 l.alarmFlag ++ be4 l.statusFlag ++ be4 l.latitude
          ++ be4 l.longitude ++ be2 l.altitude ++ be2 l.speed ++ be2 l.direction
          ++ stringToBCD l.timestamp 6, ?_⟩
        simp only [serializeField, hft, serializeLocArray,
          serializeLocation_wf l hwf]
        rfl
  | arrayParam =>
    cases v <;> simp only [serWF, hft] at hwf <;> try exact Bool.noConfusion hwf
    rename_i ps
    obtain ⟨bs, hbs⟩ := serializeParamArray_ok ps hwf
    exact ⟨bs, by simp only [serializeField, hft]; exact hbs⟩

/-- A validated, well formed data object always serializes, field by
field. -/
theorem serializeFields_ok : ∀ (fields : List Field) (data : FieldMap),
    validateFields fields data = none → serReady fields data = true →
    ∃ bs, serializeFields fields data = .ok bs
  | [], _, _, _ => ⟨[], rfl⟩
  | f :: fs, data, hval, hwf => by
    simp only [serReady, List.all_cons, Bool.and_eq_true] at hwf
    obtain ⟨hwf1, hwf2⟩ := hwf
    simp only [validateFields] at hval
    cases hv : data f.name with
    | none =>
      rw [hv] at hval
      exact absurd hval (by simp)
    | some v =>
      rw [hv] at hval hwf1
      dsimp only at hval hwf1
      split_ifs at hval with hvt
      obtain ⟨bsf, hbsf⟩ := serializeField_ok f v hvt hwf1
      obtain ⟨bsr, hbsr⟩ := serializeFields_ok fs data hval (by
        simp only [serReady]
        exact hwf2)
      refine ⟨bsf ++ bsr, ?_⟩
      simp only [serializeFields, hv, hbsf, hbsr]
      rfl

/-- The schema walk decodes the concatenated field encodings back to the
normalized data, threading the cursor through every field. -/
theorem deserializeFields_roundtrip :
    ∀ (fields : List Field) (data : FieldMap) (bs B pre rest : List Nat) (off : Nat),
      varLast fields = true →
      ((∃ f ∈ fields, isVarType f.type = true) → rest = []) →
      validateFields fields data = none →
      serReady fields data = true →
      serializeFields fields data = .ok bs →
      B = pre ++ (bs ++ rest) → off = pre.length →
      deserializeFields fields ⟨B, off⟩
        = .ok (normalizeMap fields data, ⟨B, off + bs.length⟩)
  | [], data, bs, B, pre, rest, off, _, _, _, _, hser, hB, hoff => by
    simp only [serializeFields] at hser
    injection hser with hser
    subst hser
    simp [deserializeFields, normalizeMap]
  | f :: fs, data, bs, B, pre, rest, off, hvl, hvrest, hval, hwf, hser, hB, hoff => by
    simp only [serReady, List.all_cons, Bool.and_eq_true] at hwf
    obtain ⟨hwf1, hwf2⟩ := hwf
    simp only [validateFields] at hval
    cases hv : data f.name with
    | none =>
      rw [hv] at hval
      exact absurd hval (by simp)
    | some v =>
      rw [hv] at hval hwf1
      dsimp only at hval hwf1
      split_ifs at hval with hvt
      simp only [serializeFields, hv] at hser
      cases hbf : serializeField f v with
      | error e =>
        rw [hbf] at hser
        exact Except.noConfusion hser
      | ok bsf =>
        rw [hbf] at hser
        cases hbr : serializeFields fs data with
        | error e =>
          rw [hbr] at hser
          exact Except.noConfusion hser
        | ok bsr =>
          rw [hbr] at hser
          have hser2 : Except.ok (bsf ++ bsr) = (Except.ok bs : Except SerErr (List Nat)) := hser
          injection hser2 with hser2
          subst hser2
          have hvarf : isVarType f.type = true → bsr ++ rest = [] := by
            intro hvt2
            cases fs with
            | nil =>
              simp only [serializeFields] at hbr
              injection hbr with hbr
              subst hbr
              have hr : rest = [] := hvrest ⟨f, by simp, hvt2⟩
              rw [hr]
              rfl
            | cons g gs =>
              simp only [varLast, Bool.and_eq_true, Bool.not_eq_eq_eq_not,
                Bool.not_true] at hvl
              rw [hvl.1] at hvt2
              exact absurd hvt2 (by simp)
          have hstep := deserializeField_roundtrip f v bsf B pre (bsr ++ rest) off
            hbf hvt hwf1 hvarf (by rw [hB]; simp) hoff
          have hvl2 : varLast fs = true := by
            cases fs with
            | nil => rfl
            | cons g gs =>
              simp only [varLast, Bool.and_eq_true] at hvl
              exact hvl.2
          have hrec := deserializeFields_roundtrip fs data bsr B (pre ++ bsf) rest
            (off + bsf.length) hvl2
            (fun hex => hvrest ⟨hex.choose, by
              have hm := hex.choose_spec
              exact ⟨by simp [hm.1], hm.2⟩⟩)
            hval (by simp only [serReady]; exact hwf2) hbr
            (by rw [hB]; simp) (by simp [hoff])
          simp only [deserializeFields, hstep, hrec]
          simp only [normalizeMap, List.map_cons, hv]
          have hlen : off + (bsf ++ bsr).length = off + bsf.length + bsr.length := by
            simp [Nat.add_assoc]
          rw [hlen]

set_option maxHeartbeats 1000000 in
/-- Every registry schema keeps its variable width fields last. -/
theorem lookupStructure_varLast (messageId : Nat) (st : MessageStructure)
    (h : lookupStructure messageId = some st) : varLast st.fields = true := by
  unfold lookupStructure at h
  split_ifs at h <;> (injection h with h; subst h; decide)

/-- C1: for every message identifier in the registry and every field map
that passes the validator and is serialization well formed (ascii clean
strings, complete in range location records with twelve digit timestamps,
consistent parameter records, and, for the batch location report, a
locationItems array of exactly one record), serialization succeeds and
deserializing its output returns the schema fields in order with the
original values, strings compared after NUL trim normalization. The
original claim allowed any number of location records matching itemCount;
that fails, because the 0x0704 schema declares no count field for
locationItems, so deserializeArray reads exactly one location record. -/
theorem claim_C1_roundtrip (messageId : Nat) (st : MessageStructure)
    (data : FieldMap)
    (hst : lookupStructure messageId = some st)
    (hval : validateFields st.fields data = none)
    (hwf : serReady st.fields data = true) :
    ∃ body, serialize messageId data = .ok body
      ∧ deserialize messageId body = .ok (normalizeMap st.fields data) := by
  obtain ⟨bs, hbs⟩ := serializeFields_ok st.fields data hval hwf
  refine ⟨bs, ?_, ?_⟩
  · simp only [serialize, hst, hbs]
  · have hdf := deserializeFields_roundtrip st.fields data bs bs [] [] 0
      (lookupStructure_varLast messageId st hst) (fun _ => rfl)
      hval hwf hbs (by simp) rfl
    simp only [deserialize, hst, hdf]

/-- C1 witness: the platform general response round trips on a concrete
well formed data object. -/
theorem claim_C1_witness :
    lookupStructure 0x8001 = some platformGeneralResponseStructure
    ∧ validateFields platformGeneralResponseStructure.fields c1WitnessData = none
    ∧ serReady platformGeneralResponseStructure.fields c1WitnessData = true
    ∧ ∃ body, serialize 0x8001 c1WitnessData = .ok body
        ∧ deserialize 0x8001 body
            = .ok (normalizeMap platformGeneralResponseStructure.fields c1WitnessData) :=
  ⟨rfl, rfl, rfl,
   claim_C1_roundtrip 0x8001 platformGeneralResponseStructure c1WitnessData rfl rfl rfl⟩

/-- C1 counterexample: a batch location report with itemCount 2 and two
location records passes the validator, serializes both records, yet
deserializing the output returns only the first record, so the round trip
of the original claim fails. -/
theorem claim_C1_counterexample :
    validateFields locationBatchReportStructure.fields cexBatchData = none
    ∧ serReady locationBatchReportStructure.fields cexBatchData = false
    ∧ (serialize 0x0704 cexBatchData).toOption ≠ none
    ∧ deserialize 0x0704 ((serialize 0x0704 cexBatchData).toOption.getD [])
        = .ok [("dataType", .num 0), ("itemCount", .num 2),
               ("locationItems", .locArray [cexLoc1])]
    ∧ [("dataType", JSValue.num 0), ("itemCount", JSValue.num 2),
       ("locationItems", JSValue.locArray [cexLoc1])]
        ≠ normalizeMap locationBatchReportStructure.fields cexBatchData := by
  refine ⟨rfl, rfl, by decide, ?_, by decide⟩
  rfl

end JT808
